import Mathlib

/-!
Verification of the uk_address_matcher core against its specification.

This file gives a shallow embedding, in Lean 4, of the parts of the
repository that the specification claims talk about:

* the match reason enumeration (sql_pipeline/match_reasons.py);
* column validation (sql_pipeline/validation.py);
* stage return-value normalisation and the pipeline_stage decorator
  (sql_pipeline/steps.py);
* fragment rendering and the checkpointing pipeline compiler
  (sql_pipeline/runner.py);
* the deterministic exact-match resolution engine
  (linking_model/exact_matching/); and
* post-linkage match candidate selection
  (post_linkage/match_candidate_selection.py).

Relations are modelled as lists of typed rows; SQL fragments executed by
DuckDB are translated operation by operation (joins become filters and
flat maps, GROUP BY becomes grouping on deduplicated keys, LIMIT 1
becomes head?).  DuckDB itself, and the trie/hash scalar functions
provided by a DuckDB extension, live outside this repository; where they
are needed they are modelled abstractly and the definition says so.
-/

/-! ## Small association-list helpers (Python dict behaviour). -/

/-- First-match lookup in an association list.  Lists used with this
function follow the convention that the most recent binding is consed at
the front, which matches Python dict overwrite semantics. -/
def alookup {α : Type} (m : List (String × α)) (k : String) : Option α :=
  (m.find? (fun kv => kv.1 == k)).map (·.2)

/-- Python dict built from an association list taken left to right:
insertion order is kept, later values overwrite earlier ones in place. -/
def dictMerge (xs : List (String × String)) : List (String × String) :=
  xs.foldl
    (fun acc kv =>
      if acc.any (fun e => e.1 == kv.1) then
        acc.map (fun e => if e.1 == kv.1 then (e.1, kv.2) else e)
      else acc ++ [kv])
    []

/-- Python setdefault: insert only when the key is absent. -/
def setdefaultStr {α : Type} (m : List (String × α)) (k : String) (v : α) :
    List (String × α) :=
  if (alookup m k).isSome then m else m ++ [(k, v)]

/-! ## MatchReason (sql_pipeline/match_reasons.py).

The Python class is an Enum with four members, in this definition order.
-/

inductive MatchReason
  | EXACT
  | TRIE
  | SPLINK
  | UNIQUE_TRIGRAM
deriving DecidableEq, Repr

/-- The wire value of each enum member (the Python member .value). -/
def MatchReason.value : MatchReason → String
  | .EXACT => "exact: full match"
  | .TRIE => "trie: exact match with skips and fuzziness"
  | .SPLINK => "splink: probabilistic match"
  | .UNIQUE_TRIGRAM => "unique_trigram: unique trigram match"

/-- MatchReason.enum_values(): values in definition order, used to build
DuckDB ENUM literals in every matching stage. -/
def MatchReason.enumValues : List String :=
  [MatchReason.EXACT.value, MatchReason.TRIE.value,
   MatchReason.SPLINK.value, MatchReason.UNIQUE_TRIGRAM.value]

/-! ## Stage return-value normalisation (sql_pipeline/steps.py). -/

/-- CTEStep: a named SQL fragment. -/
structure CTEStep where
  name : String
  sql : String
deriving DecidableEq, Repr

/-- One item of an iterable returned by a stage factory body.  The
`other` constructor stands for any Python value that is neither a
CTEStep nor a pair of two strings (its repr is kept for the message). -/
inductive SpecItem
  | step (c : CTEStep)
  | pair (name sql : String)
  | other (descr : String)
deriving DecidableEq, Repr

/-- The value returned by a stage factory body (the SQLSpec union type
of steps.py, plus None, which Python permits dynamically). -/
inductive SQLSpec
  | str (sql : String)
  | pair (name sql : String)
  | noneSpec
  | items (l : List SpecItem)
deriving DecidableEq, Repr

/-- The errors raised by _normalise_sql_step, as structured values
(the Python code raises TypeError / ValueError with these contents). -/
inductive StepsError
  | typeErrorNoneReturned
  | typeErrorBadItem (index : Nat) (descr : String)
  | valueErrorEmpty
  | valueErrorDuplicateNames (names : List String)
deriving DecidableEq, Repr

/-- The loop inside _normalise_sql_step: convert items one by one,
raising a TypeError that names the index of the first bad item. -/
def collectItems : Nat → List SpecItem → Except StepsError (List CTEStep)
  | _, [] => .ok []
  | i, (.step c) :: rest => (collectItems (i + 1) rest).map (fun l => c :: l)
  | i, (.pair n s) :: rest =>
      (collectItems (i + 1) rest).map (fun l => ⟨n, s⟩ :: l)
  | i, (.other d) :: _ => .error (.typeErrorBadItem i d)

/-- _normalise_sql_step, following the branch order of the source: a raw
string, a (name, sql) pair, None, then the iterable case with the empty
check and the duplicate-name check. -/
def normalise_sql_step : SQLSpec → Except StepsError (List CTEStep)
  | .str sql => .ok [⟨"frag_00", sql⟩]
  | .pair n s => .ok [⟨n, s⟩]
  | .noneSpec => .error .typeErrorNoneReturned
  | .items l => do
      let out ← collectItems 0 l
      if out.isEmpty then
        .error .valueErrorEmpty
      else
        let names := out.map (·.name)
        if names.length ≠ names.dedup.length then
          .error (.valueErrorDuplicateNames names)
        else
          .ok out

/-- Stage metadata (steps.py StageMeta, after list coercion). -/
structure StageMeta where
  description : Option String := none
  tags : Option (List String) := none
  depends_on : Option (List String) := none
deriving DecidableEq, Repr

/-- Stage (steps.py).  The registers and preludes fields are DuckDB
side-effect helpers that the claims do not touch and are omitted. -/
structure Stage where
  name : String
  steps : List CTEStep
  stage_metadata : Option StageMeta := none
  output : Option String := none
  checkpoint : Bool := false
deriving DecidableEq, Repr

/-- The configuration captured by the pipeline_stage decorator. -/
structure PipelineStageConfig where
  name : String
  description : String := ""
  tags : Option (List String) := none
  depends_on : Option (List String) := none
  checkpoint : Bool := false
  stage_output : Option String := none
deriving DecidableEq, Repr

/-- The factory produced by the pipeline_stage decorator: it first
normalises the body result and only then constructs the Stage object, so
every error is raised before any Stage exists. -/
def pipeline_stage_factory (cfg : PipelineStageConfig) (spec : SQLSpec) :
    Except StepsError Stage :=
  (normalise_sql_step spec).map (fun steps =>
    { name := cfg.name
      steps := steps
      stage_metadata := some
        { description := some cfg.description
          tags := cfg.tags
          depends_on := some ((cfg.depends_on).getD [])
        }
      output := cfg.stage_output
      checkpoint := cfg.checkpoint })

/-! ## Column validation (sql_pipeline/validation.py). -/

/-- Python dict built from an association list, generic value type:
insertion order kept, later values overwrite earlier ones in place. -/
def pyDict {α : Type} (xs : List (String × α)) : List (String × α) :=
  xs.foldl
    (fun acc kv =>
      if acc.any (fun e => e.1 == kv.1) then
        acc.map (fun e => if e.1 == kv.1 then (e.1, kv.2) else e)
      else acc ++ [kv])
    []

/-- ASCII upper-casing of one character (str.upper on the ASCII dtype
strings DuckDB reports). -/
def asciiUpper (c : Char) : Char :=
  if 97 ≤ c.toNat ∧ c.toNat ≤ 122 then Char.ofNat (c.toNat - 32) else c

/-- Python regex whitespace class over ASCII: space, tab, newline,
vertical tab, form feed, carriage return. -/
def isPySpace (c : Char) : Bool :=
  c.toNat = 32 ∨ c.toNat = 9 ∨ c.toNat = 10 ∨ c.toNat = 11 ∨
    c.toNat = 12 ∨ c.toNat = 13

/-- Python regex word-character class over ASCII: letters, digits and
the underscore (used for the word boundaries in the alias pattern). -/
def isWordChar (c : Char) : Bool :=
  (48 ≤ c.toNat ∧ c.toNat ≤ 57) ∨ (65 ≤ c.toNat ∧ c.toNat ≤ 90) ∨
    (97 ≤ c.toNat ∧ c.toNat ≤ 122) ∨ c.toNat = 95

/-- str.strip: drop leading and trailing whitespace. -/
def stripChars (l : List Char) : List Char :=
  ((l.dropWhile isPySpace).reverse.dropWhile isPySpace).reverse

/-- Collapse every maximal run of whitespace into a single space (the
flag records whether the previous character was whitespace). -/
def collapseWsAux (prevSpace : Bool) : List Char → List Char
  | [] => []
  | c :: rest =>
      if isPySpace c then
        if prevSpace then collapseWsAux true rest
        else ' ' :: collapseWsAux true rest
      else c :: collapseWsAux false rest

/-- re.sub of one space for every whitespace run. -/
def collapseWs (l : List Char) : List Char := collapseWsAux false l

/-- The _DEFAULT_ALIASES table, sorted by key length descending with
Python stable sort (this is the alternation order of the regex). -/
def pyAliasesSorted : List (List Char × List Char) :=
  [("DOUBLE PRECISION".data, "DOUBLE".data),
   ("STRING".data, "VARCHAR".data),
   ("FLOAT".data, "DOUBLE".data),
   ("TEXT".data, "VARCHAR".data),
   ("BOOL".data, "BOOLEAN".data),
   ("INT".data, "INTEGER".data)]

/-- Try each alias key at the current position.  A key matches when the
previous character is not a word character (left boundary), the key is a
literal prefix of the remaining input, and the character after it, if
any, is not a word character (right boundary).  Returns the replacement
and the matched length. -/
def tryKeys (prevIsWord : Bool) (s : List Char) :
    List (List Char × List Char) → Option (List Char × Nat)
  | [] => none
  | (k, v) :: rest =>
      if !prevIsWord && k.isPrefixOf s &&
          (match (s.drop k.length).head? with
           | none => true
           | some c => !isWordChar c) then
        some (v, k.length)
      else tryKeys prevIsWord s rest

/-- re.sub over the whole string: scan left to right, replacing each
boundary-delimited alias key and resuming after the matched text.  After
a match the previous character (the last character of the matched key)
is always a word character, so prevIsWord is passed as true.  The fuel
argument (one unit per consumed character, so the length of the input
suffices) makes the recursion structural. -/
def aliasScanFuel (prevIsWord : Bool) : Nat → List Char → List Char
  | _, [] => []
  | 0, l => l
  | fuel + 1, c :: rest =>
      match tryKeys prevIsWord (c :: rest) pyAliasesSorted with
      | some (v, n) => v ++ aliasScanFuel true fuel (rest.drop (n - 1))
      | none => c :: aliasScanFuel (isWordChar c) fuel rest

/-- The alias substitution pass. -/
def aliasScan (prevIsWord : Bool) (l : List Char) : List Char :=
  aliasScanFuel prevIsWord l.length l

/-- The normaliser produced by _make_normaliser: upper-case and strip,
collapse whitespace, substitute dtype aliases, then cut everything from
the first opening parenthesis and strip again. -/
def normaliseChars (l : List Char) : List Char :=
  let t := stripChars (l.map asciiUpper)
  let t := collapseWs t
  let t := aliasScan false t
  if t.contains '(' then stripChars (t.takeWhile (fun c => c != '(')) else t

/-- String-level wrapper for the dtype normaliser. -/
def normaliseDtype (s : String) : String :=
  ⟨normaliseChars s.data⟩

/-- ColumnSpec: column name and optional (to-be-normalised) dtype. -/
structure ColumnSpec where
  name : String
  dtype : Option String := none
deriving DecidableEq, Repr

/-- Validation errors as structured values.  The Python code renders
them as human-readable strings; only the content is modelled here. -/
inductive ValidationError
  | missingColumn (label name : String)
  | typeMismatch (label name : String) (expected : String)
      (found : Option String)
deriving DecidableEq, Repr

/-- _coerce_required: the set of required names, and the set of typed
requirements with their dtypes normalised. -/
def coerceRequired (required : List ColumnSpec) :
    List String × List ColumnSpec :=
  (required.map (·.name),
   required.filterMap (fun c =>
     c.dtype.map (fun d => ⟨c.name, some (normaliseDtype d)⟩)))

/-- _extract_schema: present column names, the per-name normalised dtype
dict (duplicate names keep the last dtype, as a Python dict does), and
the typed pairs drawn from that dict. -/
def extractSchema (schema : List (String × String)) :
    List String × List ColumnSpec × List (String × Option String) :=
  let normMap := pyDict (schema.map (fun nt => (nt.1, some (normaliseDtype nt.2))))
  (schema.map (·.1),
   normMap.map (fun nt => ⟨nt.1, nt.2⟩),
   normMap)

/-- _validate_core: report each missing required column, then each typed
requirement whose normalised pair is absent from the relation schema. -/
def validateCore (label : String) (presentNames : List String)
    (typedPairs : List ColumnSpec) (normMap : List (String × Option String))
    (reqNames : List String) (reqTyped : List ColumnSpec) :
    List ValidationError :=
  let missing :=
    ((reqNames.dedup.filter (fun m => !presentNames.contains m)).mergeSort
      (fun a b => a ≤ b))
  let missingErrs := missing.map (fun m => ValidationError.missingColumn label m)
  let typedSorted := (reqTyped.dedup).mergeSort (fun a b => a.name ≤ b.name)
  missingErrs ++ typedSorted.filterMap (fun exp =>
    if missing.contains exp.name then none
    else if typedPairs.contains exp then none
    else some (ValidationError.typeMismatch label exp.name
      (exp.dtype.getD "") ((alookup normMap exp.name).getD none)))

/-- validate_table with raise_on_error=False: returns the error list for
one relation, whose schema is given as (column name, declared dtype)
pairs in column order. -/
def validate_table (label : String) (schema : List (String × String))
    (required : List ColumnSpec) : List ValidationError :=
  let (reqNames, reqTyped) := coerceRequired required
  let (presentNames, typedPairs, normMap) := extractSchema schema
  validateCore label presentNames typedPairs normMap reqNames reqTyped

/-! ## Identifier helpers (sql_pipeline/helpers.py).

The source builds fragment aliases with Python f-strings over a running
step counter; decimal rendering of the counter is embedded with its own
digit functions so that its properties can be proved. -/

/-- The ASCII digit character for n (n is always below ten here). -/
def digitChar (n : Nat) : Char := Char.ofNat (48 + n % 10)

/-- Decimal digits of a natural number, most significant first (the
fuel, for which the number itself suffices, makes the recursion
structural). -/
def natDigitsFuel : Nat → Nat → List Char
  | 0, n => [digitChar n]
  | fuel + 1, n =>
      if n < 10 then [digitChar n]
      else natDigitsFuel fuel (n / 10) ++ [digitChar (n % 10)]

/-- Decimal digits of a natural number, most significant first. -/
def natDigits (n : Nat) : List Char := natDigitsFuel n n

/-- Decimal rendering of a natural number. -/
def natStr (n : Nat) : String := ⟨natDigits n⟩

/-- Numeric value of a list of decimal digit characters (used to show
that natStr is injective). -/
def parseNatDigits (l : List Char) : Nat :=
  l.foldl (fun acc c => 10 * acc + (c.toNat - 48)) 0

/-- ASCII lower-casing of one character. -/
def asciiLower (c : Char) : Char :=
  if 65 ≤ c.toNat ∧ c.toNat ≤ 90 then Char.ofNat (c.toNat + 32) else c

/-- Characters the _slug helper keeps: lower-case letters, digits and
the underscore. -/
def isSlugChar (c : Char) : Bool :=
  (97 ≤ c.toNat ∧ c.toNat ≤ 122) ∨ (48 ≤ c.toNat ∧ c.toNat ≤ 57) ∨
    c.toNat = 95

/-- One pass of the _slug regex: every maximal run of characters outside
the slug class becomes a single underscore (the flag records whether the
previous character was outside the class). -/
def slugAux (prevBad : Bool) : List Char → List Char
  | [] => []
  | c :: rest =>
      if isSlugChar c then c :: slugAux false rest
      else if prevBad then slugAux true rest
      else '_' :: slugAux true rest

/-- _slug: lower-case, then collapse runs of non slug characters. -/
def slug (s : String) : String := ⟨slugAux false (s.data.map asciiLower)⟩

/-! ## String-level fragment rendering (sql_pipeline/runner.py).

render_step_to_ctes substitutes placeholders by literal text replacement
(str.replace); nothing is ever raised for a placeholder that resolves to
no alias — it simply stays in the SQL text. -/

/-- Python str.replace over character lists: replace each non-overlapping
occurrence of pat, scanning left to right.  The patterns used by the
renderer are brace-wrapped names and never empty.  The fuel argument
(one unit per consumed character, so the length of the input suffices)
makes the recursion structural. -/
def replListFuel (pat repl : List Char) : Nat → List Char → List Char
  | _, [] => []
  | 0, l => l
  | fuel + 1, c :: rest =>
      if pat ≠ [] ∧ pat.isPrefixOf (c :: rest) then
        repl ++ replListFuel pat repl fuel (rest.drop (pat.length - 1))
      else c :: replListFuel pat repl fuel rest

/-- Python str.replace on strings. -/
def pyReplace (s pat repl : String) : String :=
  ⟨replListFuel pat.data repl.data s.data.length s.data⟩

/-- QueuedFragment (runner.py): a rendered fragment with its alias and
stage metadata. -/
structure QueuedFragment where
  sql : String
  aliasName : String
  stage_name : Option String := none
  fragment_name : Option String := none
  stage_description : Option String := none
deriving DecidableEq, Repr

/-- Apply one placeholder substitution per replacement entry, in dict
iteration order, exactly as the renderer loop does. -/
def substitutePlaceholders (replacements : List (String × String))
    (sql : String) : String :=
  replacements.foldl
    (fun s kv => pyReplace s ("\x7b" ++ kv.1 ++ "\x7d") kv.2) sql

/-- The alias given to a rendered fragment: step counter, slugged stage
name and slugged fragment name. -/
def fragmentAlias (stepIdx : Nat) (stepName fragName : String) : String :=
  "s" ++ natStr stepIdx ++ "_" ++ slug stepName ++ "__" ++ slug fragName

/-- The loop body of render_step_to_ctes: render each fragment with the
replacements visible at that point (base mapping merged with the aliases
of the fragments already rendered in this stage, fragment-local names
taking precedence). -/
def renderFragsS (stepName : String) (stageDescription : Option String)
    (stepIdx : Nat) (baseMapping : List (String × String)) :
    List CTEStep → List (String × String) →
      List QueuedFragment × List (String × String)
  | [], fragAliases => ([], fragAliases)
  | frag :: rest, fragAliases =>
      let fragAlias := fragmentAlias stepIdx stepName frag.name
      let replacements := dictMerge (baseMapping ++ fragAliases)
      let sql := substitutePlaceholders replacements frag.sql
      let (ctes, fa) :=
        renderFragsS stepName none stepIdx baseMapping rest
          (pyDict (fragAliases ++ [(frag.name, fragAlias)]))
      ({ sql := sql, aliasName := fragAlias, stage_name := some stepName,
         fragment_name := some frag.name,
         stage_description := stageDescription } :: ctes, fa)

/-- render_step_to_ctes: instantiate the templated fragments of a stage
into concrete namespaced CTEs; returns the fragments, the declared
output alias and the alias of the literal last fragment.  It is a total
function: unknown placeholders are left in the emitted SQL. -/
def render_step_to_ctes (step : Stage) (stepIdx : Nat) (prevAlias : String)
    (aliasMap : List (String × String)) :
    List QueuedFragment × String × String :=
  let baseMapping := dictMerge (("input", prevAlias) :: aliasMap)
  let stageDescription :=
    match step.stage_metadata with
    | some m => m.description.bind (fun d => if d.isEmpty then none else some d)
    | none => none
  let (ctes, fragAliases) :=
    renderFragsS step.name stageDescription stepIdx baseMapping step.steps []
  let defaultOutputName := ((step.steps.getLast?).map (·.name)).getD ""
  let defaultAlias := (alookup fragAliases defaultOutputName).getD ""
  let outAlias :=
    match step.output with
    | some o =>
        if o.isEmpty then defaultAlias
        else (alookup fragAliases o).getD defaultAlias
    | none => defaultAlias
  (ctes, outAlias, defaultAlias)

/-! ## Semantic model of the pipeline compiler (sql_pipeline/runner.py).

For the checkpoint-transparency claim the meaning of the rendered SQL is
needed, and DuckDB is outside this repository.  Modelled from the spec:
the relational engine is abstracted by giving every SQL template a
semantic function of an environment mapping relation names to relations,
which depends only on the placeholder names the template references.  A
relation is a list of rows (over an arbitrary concrete row type).
Everything else — alias allocation, the alias map, placeholder
resolution, checkpoint materialisation and remapping — follows
runner.py line by line; the random uid suffixes of the source are
replaced by deterministic counters, which only changes the spelling of
the generated names. -/

/-- Relations for the semantic pipeline model. -/
abbrev SRel := List Int

/-- A SQL template: the set of placeholder names it references and its
meaning as a function of an environment; the meaning may depend only on
the referenced names. -/
structure Tmpl where
  refs : List String
  sem : (String → SRel) → SRel
  deps : ∀ e₁ e₂ : String → SRel, (∀ r ∈ refs, e₁ r = e₂ r) → sem e₁ = sem e₂

/-- A template referencing a single name (covers SELECT ... FROM one
placeholder, which is what every fragment in this development uses). -/
def tmplRef (r : String) (post : SRel → SRel) : Tmpl where
  refs := [r]
  sem := fun env => post (env r)
  deps := by
    intro e₁ e₂ h
    simp [h r (by simp)]

/-- A named fragment of a pipeline stage (semantic counterpart of
CTEStep). -/
structure PFrag where
  name : String
  tmpl : Tmpl

/-- A pipeline stage for the semantic model (semantic counterpart of
Stage). -/
structure PStep where
  name : String
  frags : List PFrag
  output : Option String := none
  checkpoint : Bool := false

/-- A rendered fragment: its allocated alias, its template, and the
placeholder-to-alias resolution fixed at render time. -/
structure RFrag where
  aliasName : String
  tmpl : Tmpl
  res : String → String

/-- Placeholder resolution: fragment-local aliases take precedence, then
the pipeline alias map, then the reserved name input bound to the
previous alias; anything else is left unresolved (the string keeps its
braces, exactly as the text substitution in the source leaves it). -/
def resolveRef (fragAliases aliasMap : List (String × String))
    (prev r : String) : String :=
  match alookup fragAliases r with
  | some a => a
  | none =>
      match alookup aliasMap r with
      | some a => a
      | none => if r == "input" then prev else "\x7b" ++ r ++ "\x7d"

/-- Python dict single-key assignment: overwrite in place or append. -/
def pyInsert {α : Type} (m : List (String × α)) (k : String) (v : α) :
    List (String × α) :=
  if m.any (fun e => e.1 == k) then
    m.map (fun e => if e.1 == k then (e.1, v) else e)
  else m ++ [(k, v)]

/-- Render the fragments of a stage in order, accumulating the
fragment-local alias dict (semantic counterpart of the renderer loop). -/
def renderFrags (stepName : String) (idx : Nat) (prev : String)
    (aliasMap : List (String × String)) :
    List PFrag → List (String × String) → List RFrag × List (String × String)
  | [], fragAliases => ([], fragAliases)
  | f :: rest, fragAliases =>
      let a := fragmentAlias idx stepName f.name
      let (ctes, fa) :=
        renderFrags stepName idx prev aliasMap rest (pyInsert fragAliases f.name a)
      (⟨a, f.tmpl, resolveRef fragAliases aliasMap prev⟩ :: ctes, fa)

/-- Semantic render_step_to_ctes: rendered fragments, declared output
alias, and the alias of the literal last fragment. -/
def renderPStep (step : PStep) (idx : Nat) (prev : String)
    (aliasMap : List (String × String)) : List RFrag × String × String :=
  let (ctes, fa) := renderFrags step.name idx prev aliasMap step.frags []
  let defaultName := ((step.frags.getLast?).map (·.name)).getD ""
  let defaultAlias := (alookup fa defaultName).getD ""
  let outAlias :=
    match step.output with
    | some o => if o.isEmpty then defaultAlias else (alookup fa o).getD defaultAlias
    | none => defaultAlias
  (ctes, outAlias, defaultAlias)

/-- Look a relation name up in an environment given as an association
list (tables and already-evaluated CTEs); unknown names denote the empty
relation. -/
def lookupRel (env : List (String × SRel)) (x : String) : SRel :=
  ((env.find? (fun kv => kv.1 == x)).map (·.2)).getD []

/-- The value of one rendered fragment under an environment. -/
def evalRF (env : List (String × SRel)) (f : RFrag) : SRel :=
  f.tmpl.sem (fun r => lookupRel env (f.res r))

/-- Evaluate a WITH chain: each fragment is evaluated in the environment
extended with all fragments before it (standard CTE scoping). -/
def extendEnv (env : List (String × SRel)) : List RFrag → List (String × SRel)
  | [] => env
  | f :: rest => extendEnv ((f.aliasName, evalRF env f) :: env) rest

/-- The alias the composed statement selects from: the last fragment. -/
def lastAliasOf (q : List RFrag) : String :=
  ((q.getLast?).map (·.aliasName)).getD ""

/-- The value of the composed WITH ... SELECT * FROM last statement. -/
def chainVal (tables : List (String × SRel)) (q : List RFrag) : SRel :=
  lookupRel (extendEnv tables q) (lastAliasOf q)

/-- The mutable state of a DuckDBPipeline: the queued fragments, the
alias map, the session tables (registered inputs plus materialised
checkpoint segments), the step counter and the checkpoint counter. -/
structure PipeSt where
  queue : List RFrag
  aliasMap : List (String × String)
  tables : List (String × SRel)
  counter : Nat
  seg : Nat

/-- _materialise_checkpoint: execute the accumulated chain into a fresh
temporary table, reset the queue to a seed reading from it, and remap
every alias-map entry that pointed at any queued fragment to the seed. -/
def materialiseCheckpoint (st : PipeSt) : PipeSt :=
  let v := chainVal st.tables st.queue
  let tmp := "__seg_" ++ natStr st.seg
  let seedAlias := "seed_ck_" ++ natStr st.seg
  let prevAliases := st.queue.map (·.aliasName)
  { queue := [⟨seedAlias, tmplRef tmp id, id⟩]
    aliasMap := st.aliasMap.map
      (fun kv => if kv.2 ∈ prevAliases then (kv.1, seedAlias) else kv)
    tables := st.tables ++ [(tmp, v)]
    counter := st.counter
    seg := st.seg + 1 }

/-- add_step: render against the current last alias and alias map,
enqueue the fragments, register the declared output name and the literal
last fragment name, then materialise if the stage is checkpointed.  The
honourCheckpoints flag False runs the same pipeline with every
checkpoint flag cleared. -/
def addPStep (honourCheckpoints : Bool) (st : PipeSt) (step : PStep) : PipeSt :=
  let prev := lastAliasOf st.queue
  let (ctes, outAlias, defaultAlias) := renderPStep step st.counter prev st.aliasMap
  let lastName := ((step.frags.getLast?).map (·.name)).getD ""
  let am :=
    match step.output with
    | some o =>
        if o.isEmpty then pyInsert st.aliasMap lastName defaultAlias
        else setdefaultStr (pyInsert st.aliasMap o outAlias) lastName defaultAlias
    | none => pyInsert st.aliasMap lastName defaultAlias
  let st' : PipeSt :=
    { queue := st.queue ++ ctes
      aliasMap := am
      tables := st.tables
      counter := st.counter + 1
      seg := st.seg }
  if honourCheckpoints ∧ step.checkpoint then materialiseCheckpoint st' else st'

/-- Pipeline construction: register the input bindings as tables under
their placeholder names, expose the first input also as root, and seed
the queue with SELECT * FROM the root input. -/
def initPipe (inputs : List (String × SRel)) : PipeSt :=
  let rootAlias := ((inputs.head?).map (·.1)).getD ""
  { queue := [⟨"seed_init", tmplRef rootAlias id, id⟩]
    aliasMap := setdefaultStr (inputs.map (fun kv => (kv.1, kv.1))) "root" rootAlias
    tables := inputs
    counter := 0
    seg := 0 }

/-- run(): add every stage in order and evaluate the final composed
statement against the session tables. -/
def runPipe (honourCheckpoints : Bool) (inputs : List (String × SRel))
    (steps : List PStep) : SRel :=
  let fin := steps.foldl (addPStep honourCheckpoints) (initPipe inputs)
  chainVal fin.tables fin.queue

/-! ## Deterministic exact matching (linking_model/exact_matching/).

Rows are typed, so the up-front column contract of validate_tables is
encoded structurally.  SQL NULL becomes Option; the surrogate key
ukam_address_id is a plain Nat because the data model guarantees it is
present and unique per physical row. -/

/-- A fuzzy (messy) address row with the required column contract. -/
structure FuzzyRow where
  unique_id : Int
  original_address_concat : Option String
  postcode : Option String
  ukam_address_id : Nat
  address_tokens : List String
deriving DecidableEq, Repr

/-- A canonical address row with the required column contract. -/
structure CanonRow where
  unique_id : Option Int
  original_address_concat : Option String
  postcode : Option String
  ukam_address_id : Nat
  address_tokens : List String
deriving DecidableEq, Repr

/-- PostcodeStrategy (input_filters.py): exact postcode equality or the
postcode minus its last character. -/
inductive PostcodeStrategy
  | exact
  | dropLastCharStrategy
deriving DecidableEq, Repr

/-- LEFT(s, LENGTH(s) - 1): all characters but the last. -/
def dropLastChar (s : String) : String := ⟨s.data.dropLast⟩

/-- The CASE WHEN expr IS NULL OR LENGTH(expr) <= 1 THEN NULL ELSE
LEFT(expr, LENGTH(expr) - 1) END expression of _postcode_prefix. -/
def postcodeKeyDropLast (p : Option String) : Option String :=
  match p with
  | none => none
  | some s => if s.length ≤ 1 then none else some (dropLastChar s)

/-- The fuzzy-side postcode key expression of the restrict stage. -/
def fuzzyKeyExpr : PostcodeStrategy → FuzzyRow → Option String
  | .exact, f => f.postcode
  | .dropLastCharStrategy, f => postcodeKeyDropLast f.postcode

/-- The canonical-side postcode key expression of the restrict stage. -/
def canonKeyExpr : PostcodeStrategy → CanonRow → Option String
  | .exact, c => c.postcode
  | .dropLastCharStrategy, c => postcodeKeyDropLast c.postcode

/-- A row of the canonical_addresses_restricted fragment.  Joining on a
non-null key forces the postcode to be non-null, and the WHERE clause
forces the canonical unique_id to be non-null, so both are plain here;
postcode_group is only produced under the drop-last-char strategy. -/
structure RestrictedRow where
  original_address_concat : Option String
  postcode : String
  canonical_unique_id : Int
  ukam_address_id : Nat
  address_tokens : List String
  postcode_group : Option String
deriving DecidableEq, Repr

/-- _restrict_canonical_to_fuzzy_postcodes: keep the canonical rows with
non-null unique_id whose key equals one of the distinct non-null fuzzy
keys. -/
def restrict_canonical_to_fuzzy_postcodes (strategy : PostcodeStrategy)
    (fuzzy : List FuzzyRow) (canonical : List CanonRow) : List RestrictedRow :=
  let keys := (fuzzy.filterMap (fuzzyKeyExpr strategy)).dedup
  canonical.flatMap (fun c =>
    match canonKeyExpr strategy c, c.postcode, c.unique_id with
    | some k, some p, some uid =>
        if k ∈ keys then
          [{ original_address_concat := c.original_address_concat
             postcode := p
             canonical_unique_id := uid
             ukam_address_id := c.ukam_address_id
             address_tokens := c.address_tokens
             postcode_group :=
               match strategy with
               | .exact => none
               | .dropLastCharStrategy => some (dropLastChar p) }]
        else []
    | _, _, _ => [])

/-- SQL equality on nullable strings: null never compares equal. -/
def sqlEqStr (a b : Option String) : Bool :=
  match a, b with
  | some x, some y => x == y
  | _, _ => false

/-- The narrow match relation every deterministic stage produces: the
fuzzy surrogate key, the matched canonical surrogate key, the resolved
canonical identifier and the match reason. -/
structure MatchRow where
  ukam_address_id : Nat
  canonical_ukam_address_id : Nat
  resolved_canonical_id : Int
  match_reason : MatchReason
deriving DecidableEq, Repr

/-- _annotate_exact_matches: INNER JOIN LATERAL (SELECT ... WHERE the
address and postcode are equal LIMIT 1) — each fuzzy row is paired with
the first matching restricted canonical row, if any (the source has no
ORDER BY inside the lateral subquery). -/
def annotate_exact_matches (restricted : List RestrictedRow)
    (fuzzy : List FuzzyRow) : List MatchRow :=
  fuzzy.filterMap (fun f =>
    ((restricted.filter (fun canon =>
        sqlEqStr f.original_address_concat canon.original_address_concat &&
          f.postcode == some canon.postcode)).head?).map (fun canon =>
      { ukam_address_id := f.ukam_address_id
        canonical_ukam_address_id := canon.ukam_address_id
        resolved_canonical_id := canon.canonical_unique_id
        match_reason := MatchReason.EXACT }))

/-- _resolve_with_trie.  Modelled from the spec: build_suffix_trie and
find_address are scalar/aggregate functions of a DuckDB extension that
is not part of this repository; the trie built for a postcode group is
modelled as the bag of (canonical surrogate key, token list) pairs of
the group, and the lookup is an arbitrary function find given as a
parameter.  The grouping, joins and null filters follow the SQL of
resolve_with_trie.py. -/
def resolve_with_trie
    (find : List String → List (Nat × List String) → Option Nat)
    (restricted : List RestrictedRow) (fuzzy : List FuzzyRow) :
    List MatchRow :=
  let groups := ((restricted.map (·.postcode_group)).dedup).map (fun g =>
    (g, (restricted.filter (fun r => r.postcode_group == g)).map
          (fun r => (r.ukam_address_id, r.address_tokens))))
  let raw := fuzzy.flatMap (fun f =>
    match f.postcode with
    | none => []
    | some p =>
        (groups.filter (fun gt => gt.1 == some (dropLastChar p))).map
          (fun gt => (f.ukam_address_id, find f.address_tokens gt.2)))
  raw.flatMap (fun fc =>
    match fc.2 with
    | none => []
    | some cukam =>
        (restricted.filter (fun canon => canon.ukam_address_id == cukam)).map
          (fun canon =>
            { ukam_address_id := fc.1
              canonical_ukam_address_id := cukam
              resolved_canonical_id := canon.canonical_unique_id
              match_reason := MatchReason.TRIE }))

/-- The n-grams of a token list: every run of n consecutive tokens
(list_transform over range(1, length - n + 2) in the source; the range
is empty when the list is shorter than n). -/
def ngramsOf (tokens : List String) (n : Nat) : List (List String) :=
  if tokens.length < n then []
  else (List.range (tokens.length - n + 1)).map (fun i => (tokens.drop i).take n)

/-- A row of canonical_trigrams_exploded. -/
structure CanonTrigram where
  canonical_ukam_address_id : Nat
  canonical_unique_id : Int
  postcode : String
  trigram_hash : Nat
deriving DecidableEq, Repr

/-- A row of unique_trigram_index. -/
structure TrigramIndexRow where
  postcode : String
  trigram_hash : Nat
  canonical_ukam_address_id : Nat
  canonical_unique_id : Int
deriving DecidableEq, Repr

/-- A row of fuzzy_trigrams_exploded (with the trigram text retained, as
the registry configures include_trigram_text=True). -/
structure FuzzyTrigram where
  fuzzy_ukam_address_id : Nat
  postcode : Option String
  trigram_hash : Nat
  trigram_text : String
deriving DecidableEq, Repr

/-- A row of trigram_candidate_links. -/
structure TrigramLink where
  fuzzy_ukam_address_id : Nat
  postcode : String
  canonical_ukam_address_id : Nat
  canonical_unique_id : Int
  trigram_hash : Nat
  trigram_text : String
deriving DecidableEq, Repr

/-- A row of the trigram_matches output, with every column the SQL
emits under the registry configuration (seven columns — this is wider
than the narrow MatchRow the other stages emit). -/
structure TrigramMatchRow where
  ukam_address_id : Nat
  canonical_ukam_address_id : Nat
  resolved_canonical_id : Int
  trigram_hit_count : Nat
  supporting_trigram_hashes : List Nat
  match_reason : MatchReason
  supporting_trigram_texts : List String
deriving DecidableEq, Repr

/-- MIN over the values of a non-empty group (0 for an empty list,
which no caller produces). -/
def minNatList : List Nat → Nat
  | [] => 0
  | x :: rest => rest.foldl Nat.min x

/-- MIN over the values of a non-empty group of integers. -/
def minIntList : List Int → Int
  | [] => 0
  | x :: rest => rest.foldl min x

/-- _resolve_with_trigrams.  The hash function of DuckDB is not part of
this repository and is a parameter; the n-gram construction, DISTINCT
explosions, uniqueness index, links and HAVING filters follow the SQL
of resolve_with_trigrams.py. -/
def resolve_with_trigrams (hash : String → Nat)
    (ngram_size min_unique_hits : Nat) (restricted : List RestrictedRow)
    (fuzzy : List FuzzyRow) : List TrigramMatchRow :=
  let canonicalTrigrams :=
    (restricted.filter (fun c => ngram_size ≤ c.address_tokens.length)).map
      (fun c => (c, ngramsOf c.address_tokens ngram_size))
  let canonicalExploded : List CanonTrigram :=
    (canonicalTrigrams.flatMap (fun ct =>
      ct.2.map (fun tri =>
        { canonical_ukam_address_id := ct.1.ukam_address_id
          canonical_unique_id := ct.1.canonical_unique_id
          postcode := ct.1.postcode
          trigram_hash := hash (String.intercalate " " tri) }))).dedup
  let indexKeys :=
    (canonicalExploded.map (fun e => (e.postcode, e.trigram_hash))).dedup
  let uniqueIndex : List TrigramIndexRow := indexKeys.filterMap (fun k =>
    let ms := canonicalExploded.filter
      (fun e => e.postcode == k.1 && e.trigram_hash == k.2)
    if ((ms.map (·.canonical_ukam_address_id)).dedup).length == 1 then
      some { postcode := k.1
             trigram_hash := k.2
             canonical_ukam_address_id :=
               minNatList (ms.map (·.canonical_ukam_address_id))
             canonical_unique_id := minIntList (ms.map (·.canonical_unique_id)) }
    else none)
  let fuzzyTrigrams :=
    (fuzzy.filter (fun f => ngram_size ≤ f.address_tokens.length)).map
      (fun f => (f, ngramsOf f.address_tokens ngram_size))
  let fuzzyExploded : List FuzzyTrigram :=
    (fuzzyTrigrams.flatMap (fun ft =>
      ft.2.map (fun tri =>
        { fuzzy_ukam_address_id := ft.1.ukam_address_id
          postcode := ft.1.postcode
          trigram_hash := hash (String.intercalate " " tri)
          trigram_text := String.intercalate " " tri }))).dedup
  let links : List TrigramLink := fuzzyExploded.flatMap (fun ft =>
    match ft.postcode with
    | none => []
    | some p =>
        (uniqueIndex.filter
          (fun ix => ix.postcode == p && ix.trigram_hash == ft.trigram_hash)).map
          (fun ix =>
            { fuzzy_ukam_address_id := ft.fuzzy_ukam_address_id
              postcode := p
              canonical_ukam_address_id := ix.canonical_ukam_address_id
              canonical_unique_id := ix.canonical_unique_id
              trigram_hash := ft.trigram_hash
              trigram_text := ft.trigram_text }))
  let linkKeys :=
    (links.map (fun l => (l.fuzzy_ukam_address_id, l.postcode))).dedup
  linkKeys.filterMap (fun k =>
    let ms := links.filter
      (fun l => l.fuzzy_ukam_address_id == k.1 && l.postcode == k.2)
    if ((ms.map (·.canonical_ukam_address_id)).dedup).length == 1 &&
        min_unique_hits ≤ ms.length then
      some { ukam_address_id := k.1
             canonical_ukam_address_id :=
               minNatList (ms.map (·.canonical_ukam_address_id))
             resolved_canonical_id := minIntList (ms.map (·.canonical_unique_id))
             trigram_hit_count := ms.length
             supporting_trigram_hashes := (ms.map (·.trigram_hash)).dedup
             match_reason := MatchReason.UNIQUE_TRIGRAM
             supporting_trigram_texts := (ms.map (·.trigram_text)).dedup }
    else none)

/-- The matching stage names (matching_stages.py StageName). -/
inductive StageName
  | EXACT_MATCHES
  | UNIQUE_TRIGRAM
  | TRIE
deriving DecidableEq, Repr

/-- The relation a stage pipeline returns.  The hash-exact and trie
stages emit the four narrow columns; the trigram stage emits its wider
seven-column schema — the distinction matters because DuckDB set
operations are positional. -/
inductive StageResult
  | narrow (rows : List MatchRow)
  | trigram (rows : List TrigramMatchRow)
deriving DecidableEq, Repr

/-- The DuckDB binder error raised by a UNION of relations with
different column counts (relation.union is a positional set
operation). -/
def unionColumnMismatchMsg : String :=
  "Binder Error: Set operations can only apply to expressions with the same number of result columns"

/-- matches_union.union(stage_result): positional UNION ALL, which the
engine rejects when the column counts differ. -/
def unionRel : StageResult → StageResult → Except String StageResult
  | .narrow a, .narrow b => .ok (.narrow (a ++ b))
  | .trigram a, .trigram b => .ok (.trigram (a ++ b))
  | _, _ => .error unionColumnMismatchMsg

/-- The by-name projection of a stage result onto the four narrow match
columns (_finalise_results selects these columns by name). -/
def narrowProjection : StageResult → List MatchRow
  | .narrow rows => rows
  | .trigram rows => rows.map (fun r =>
      { ukam_address_id := r.ukam_address_id
        canonical_ukam_address_id := r.canonical_ukam_address_id
        resolved_canonical_id := r.resolved_canonical_id
        match_reason := r.match_reason })

/-- The ukam_address_id column of an accumulated match relation. -/
def resultUkams : StageResult → List Nat
  | .narrow rows => rows.map (·.ukam_address_id)
  | .trigram rows => rows.map (·.ukam_address_id)

/-- _get_unmatched_subset: anti-join of the fuzzy input against the
accumulated matches on the surrogate key. -/
def get_unmatched_subset (fuzzy : List FuzzyRow) :
    Option StageResult → List FuzzyRow
  | none => fuzzy
  | some m => fuzzy.filter (fun f => !(resultUkams m).contains f.ukam_address_id)

/-- _run_stage with the registry configuration of matching_stages.py:
each stage runs its pre-filter and its factory over the unmatched fuzzy
subset and the full canonical input (the trigram stage is registered
with ngram_size=3, min_unique_hits=1, include_conflicts=False,
include_trigram_text=True). -/
def run_stage (find : List String → List (Nat × List String) → Option Nat)
    (hash : String → Nat) (stage : StageName)
    (fuzzyUnmatched : List FuzzyRow) (canonical : List CanonRow) :
    StageResult :=
  match stage with
  | .EXACT_MATCHES =>
      .narrow (annotate_exact_matches
        (restrict_canonical_to_fuzzy_postcodes .exact fuzzyUnmatched canonical)
        fuzzyUnmatched)
  | .UNIQUE_TRIGRAM =>
      .trigram (resolve_with_trigrams hash 3 1
        (restrict_canonical_to_fuzzy_postcodes .exact fuzzyUnmatched canonical)
        fuzzyUnmatched)
  | .TRIE =>
      .narrow (resolve_with_trie find
        (restrict_canonical_to_fuzzy_postcodes .dropLastCharStrategy
          fuzzyUnmatched canonical)
        fuzzyUnmatched)

/-- The ordered stage list of run_deterministic_match_pass: the
always-on hash-exact stage first, then the enabled stages in caller
order, skipping any already present. -/
def orderedStages (enabled : List StageName) : List StageName :=
  enabled.foldl (fun acc s => if s ∈ acc then acc else acc ++ [s])
    [StageName.EXACT_MATCHES]

/-- The stage loop of run_deterministic_match_pass: compute the
unmatched subset, stop early when it is empty, run the stage and union
its result into the accumulated matches. -/
def runLoop (find : List String → List (Nat × List String) → Option Nat)
    (hash : String → Nat) (fuzzy : List FuzzyRow) (canonical : List CanonRow) :
    List StageName → Option StageResult → Except String (Option StageResult)
  | [], mu => .ok mu
  | stage :: rest, mu =>
      let subset := get_unmatched_subset fuzzy mu
      if subset.length = 0 then .ok mu
      else
        let stageResult := run_stage find hash stage subset canonical
        match mu with
        | none => runLoop find hash fuzzy canonical rest (some stageResult)
        | some m => do
            let u ← unionRel m stageResult
            runLoop find hash fuzzy canonical rest (some u)

/-- A row of the final annotated output of the match pass: the fuzzy
columns plus the (independently nullable) match annotation columns. -/
structure OutRow where
  unique_id : Int
  resolved_canonical_id : Option Int
  original_address_concat : Option String
  postcode : Option String
  ukam_address_id : Nat
  address_tokens : List String
  canonical_ukam_address_id : Option Nat
  match_reason : Option MatchReason
deriving DecidableEq, Repr

/-- _finalise_results: left-join the narrow accumulated matches back
onto the original fuzzy input on the surrogate key (unmatched rows keep
null annotation columns), then reorder columns. -/
def finalise_results (fuzzy : List FuzzyRow) (matchesUnion : List MatchRow) :
    List OutRow :=
  fuzzy.flatMap (fun f =>
    match matchesUnion.filter (fun m => m.ukam_address_id == f.ukam_address_id) with
    | [] =>
        [{ unique_id := f.unique_id
           resolved_canonical_id := none
           original_address_concat := f.original_address_concat
           postcode := f.postcode
           ukam_address_id := f.ukam_address_id
           address_tokens := f.address_tokens
           canonical_ukam_address_id := none
           match_reason := none }]
    | ms => ms.map (fun m =>
        { unique_id := f.unique_id
          resolved_canonical_id := some m.resolved_canonical_id
          original_address_concat := f.original_address_concat
          postcode := f.postcode
          ukam_address_id := f.ukam_address_id
          address_tokens := f.address_tokens
          canonical_ukam_address_id := some m.canonical_ukam_address_id
          match_reason := some m.match_reason }))

/-- The value run_deterministic_match_pass returns: the original fuzzy
relation unchanged when no stage ran (the loop broke before producing
any match relation), or the annotated left-join output. -/
inductive MatchPassResult
  | passThrough (rows : List FuzzyRow)
  | annotated (rows : List OutRow)
deriving DecidableEq, Repr

/-- run_deterministic_match_pass (matching_stages.py).  The typed row
contract plays the role of validate_tables; enabled stage names are
taken after _normalise_enabled_stages, so duplicates against the
always-on stage are already excluded by the fold in orderedStages.  An
engine error (the positional-union binder error) propagates as .error. -/
def run_deterministic_match_pass
    (find : List String → List (Nat × List String) → Option Nat)
    (hash : String → Nat) (fuzzy : List FuzzyRow) (canonical : List CanonRow)
    (enabled : List StageName) : Except String MatchPassResult :=
  (runLoop find hash fuzzy canonical (orderedStages enabled) none).map
    (fun mu =>
      match mu with
      | none => .passThrough fuzzy
      | some m => .annotated (finalise_results fuzzy (narrowProjection m)))

/-! ## Match candidate selection (post_linkage/match_candidate_selection.py).

Only _combine_exact_and_splink_matches is claimed about; its two input
relations are arbitrary rows of the schemas the SQL reads.  Match
weights are modelled as integers: the combine stage never computes with
them, it only copies them or emits NULL. -/

/-- A row of the exact_matches input of the combine stage. -/
structure ExactInRow where
  unique_id : Int
  resolved_canonical_id : Option Int
  ukam_address_id : Nat
  canonical_ukam_address_id : Option Nat
  original_address_concat : Option String
  postcode : Option String
  match_reason : Option MatchReason
deriving DecidableEq, Repr

/-- A row of the splink_top input of the combine stage. -/
structure SplinkTopRow where
  unique_id : Int
  resolved_canonical_id : Option Int
  ukam_address_id : Nat
  canonical_ukam_address_id : Option Nat
  original_address_concat : Option String
  postcode : Option String
  match_reason : Option MatchReason
  match_weight : Option Int
  distinguishability : Option Int
  distinguishability_category : Option String
deriving DecidableEq, Repr

/-- A row of the combined_matches union. -/
structure CombinedMatchRow where
  unique_id : Int
  resolved_canonical_id : Option Int
  ukam_address_id : Nat
  canonical_ukam_address_id : Option Nat
  original_address_concat : Option String
  postcode : Option String
  match_reason : Option MatchReason
  match_weight : Option Int
  distinguishability : Option Int
  distinguishability_category : Option String
deriving DecidableEq, Repr

/-- A row of the canonical_projection fragment. -/
structure CanonicalProjectionRow where
  ukam_address_id : Nat
  original_address_concat_canonical : Option String
  postcode_canonical : Option String
deriving DecidableEq, Repr

/-- A row of the final match_candidates output. -/
structure CandidateRow where
  unique_id : Int
  resolved_canonical_id : Option Int
  original_address_concat : Option String
  original_address_concat_canonical : Option String
  postcode : Option String
  postcode_canonical : Option String
  match_weight : Option Int
  distinguishability : Option Int
  distinguishability_category : Option String
  match_reason : Option MatchReason
  ukam_address_id : Nat
  canonical_ukam_address_id : Option Nat
deriving DecidableEq, Repr

/-- The canonical_projection fragment: surrogate key plus renamed
address and postcode context columns. -/
def canonical_projection (canonical : List CanonRow) :
    List CanonicalProjectionRow :=
  canonical.map (fun c =>
    { ukam_address_id := c.ukam_address_id
      original_address_concat_canonical := c.original_address_concat
      postcode_canonical := c.postcode })

/-- The exact filter of the combined_matches union: all matched rows,
plus (when include_unmatched) the unmatched rows whose surrogate key has
no splink candidate. -/
def exact_filtered (include_unmatched : Bool) (exactMatches : List ExactInRow)
    (splinkTop : List SplinkTopRow) : List ExactInRow :=
  if include_unmatched then
    exactMatches.filter (fun e =>
      e.match_reason.isSome ||
        (e.match_reason.isNone &&
          !(splinkTop.map (·.ukam_address_id)).contains e.ukam_address_id))
  else exactMatches.filter (fun e => e.match_reason.isSome)

/-- An exact row as it enters the union: null weight,
distinguishability and category. -/
def exact_combined_row (e : ExactInRow) : CombinedMatchRow :=
  { unique_id := e.unique_id
    resolved_canonical_id := e.resolved_canonical_id
    ukam_address_id := e.ukam_address_id
    canonical_ukam_address_id := e.canonical_ukam_address_id
    original_address_concat := e.original_address_concat
    postcode := e.postcode
    match_reason := e.match_reason
    match_weight := none
    distinguishability := none
    distinguishability_category := none }

/-- A splink row as it enters the union, fields copied. -/
def splink_combined_row (s : SplinkTopRow) : CombinedMatchRow :=
  { unique_id := s.unique_id
    resolved_canonical_id := s.resolved_canonical_id
    ukam_address_id := s.ukam_address_id
    canonical_ukam_address_id := s.canonical_ukam_address_id
    original_address_concat := s.original_address_concat
    postcode := s.postcode
    match_reason := s.match_reason
    match_weight := s.match_weight
    distinguishability := s.distinguishability
    distinguishability_category := s.distinguishability_category }

/-- The surrogate keys resolved deterministically (non-null
match_reason), used by the NOT IN guard of the splink side. -/
def matched_exact_ukams (exactMatches : List ExactInRow) : List Nat :=
  (exactMatches.filter (fun e => e.match_reason.isSome)).map
    (·.ukam_address_id)

/-- The combined_matches fragment: filtered exact rows with null
weights, followed by the splink rows whose surrogate key was not
resolved deterministically. -/
def combined_matches (include_unmatched : Bool)
    (exactMatches : List ExactInRow) (splinkTop : List SplinkTopRow) :
    List CombinedMatchRow :=
  (exact_filtered include_unmatched exactMatches splinkTop).map
    exact_combined_row
  ++ (splinkTop.filter (fun s =>
      !(matched_exact_ukams exactMatches).contains s.ukam_address_id)).map
    splink_combined_row

/-- One output row of the final left join: combined-row fields with the
canonical context columns (null when the join found nothing). -/
def candidate_of (row : CombinedMatchRow)
    (canon : Option CanonicalProjectionRow) : CandidateRow :=
  { unique_id := row.unique_id
    resolved_canonical_id := row.resolved_canonical_id
    original_address_concat := row.original_address_concat
    original_address_concat_canonical :=
      canon.bind (·.original_address_concat_canonical)
    postcode := row.postcode
    postcode_canonical := canon.bind (·.postcode_canonical)
    match_weight := row.match_weight
    distinguishability := row.distinguishability
    distinguishability_category := row.distinguishability_category
    match_reason := row.match_reason
    ukam_address_id := row.ukam_address_id
    canonical_ukam_address_id := row.canonical_ukam_address_id }

/-- The left join of the combined rows with the canonical projection on
the canonical surrogate key: a row with no canonical match keeps null
context columns. -/
def joined_candidates (canonProj : List CanonicalProjectionRow)
    (combined : List CombinedMatchRow) : List CandidateRow :=
  combined.flatMap (fun row =>
    match (match row.canonical_ukam_address_id with
      | none => ([] : List CanonicalProjectionRow)
      | some cu => canonProj.filter (fun c => c.ukam_address_id == cu)) with
    | [] => [candidate_of row none]
    | ms => ms.map (fun c => candidate_of row (some c)))

/-- The match_candidates fragment: the left join ordered by unique_id. -/
def match_candidates (canonProj : List CanonicalProjectionRow)
    (combined : List CombinedMatchRow) : List CandidateRow :=
  (joined_candidates canonProj combined).mergeSort
    (fun a b => a.unique_id ≤ b.unique_id)

/-- _combine_exact_and_splink_matches: the three CTEs chained. -/
def combine_exact_and_splink_matches (include_unmatched : Bool)
    (exactMatches : List ExactInRow) (splinkTop : List SplinkTopRow)
    (canonical : List CanonRow) : List CandidateRow :=
  match_candidates (canonical_projection canonical)
    (combined_matches include_unmatched exactMatches splinkTop)

/-! ## Concrete sample data used by the closed theorems. -/

/-- Whether a spec item is of the unsupported shape. -/
def SpecItem.isOther : SpecItem → Bool
  | .other _ => true
  | .step _ => false
  | .pair _ _ => false

/-- A sample fuzzy row. -/
def sampleFuzzy : FuzzyRow :=
  { unique_id := 1
    original_address_concat := some "4 SAMPLE STREET"
    postcode := some "CC3 3CC"
    ukam_address_id := 1
    address_tokens := ["4", "sample", "street"] }

/-- A canonical duplicate with the higher identifier, listed first. -/
def sampleCanonHigh : CanonRow :=
  { unique_id := some 101
    original_address_concat := some "4 SAMPLE STREET"
    postcode := some "CC3 3CC"
    ukam_address_id := 11
    address_tokens := ["4", "sample", "street"] }

/-- A canonical duplicate with the lower identifier, listed second. -/
def sampleCanonLow : CanonRow :=
  { unique_id := some 100
    original_address_concat := some "4 SAMPLE STREET"
    postcode := some "CC3 3CC"
    ukam_address_id := 10
    address_tokens := ["4", "sample", "street"] }

/-- A second sample fuzzy row with no canonical counterpart. -/
def sampleFuzzyLost : FuzzyRow :=
  { unique_id := 3
    original_address_concat := some "999 MYSTERY LANE"
    postcode := some "EE5 5EE"
    ukam_address_id := 3
    address_tokens := ["999", "mystery", "lane"] }

/-- A trivial trie lookup (never matches); any function of the right
type works for the closed evaluations. -/
def trivialFind : List String → List (Nat × List String) → Option Nat :=
  fun _ _ => none

/-- A trivial token hash for the closed evaluations. -/
def trivialHash : String → Nat := fun _ => 0

/-- An ASCII digit character. -/
def isAsciiDigit (c : Char) : Bool :=
  48 ≤ c.toNat ∧ c.toNat ≤ 57

/-- The annotated output row produced for sampleFuzzy when the
canonical input holds the two duplicates: resolved to the first listed
duplicate with every annotation column populated. -/
def outRowMatched : OutRow :=
  { unique_id := 1
    resolved_canonical_id := some 101
    original_address_concat := some "4 SAMPLE STREET"
    postcode := some "CC3 3CC"
    ukam_address_id := 1
    address_tokens := ["4", "sample", "street"]
    canonical_ukam_address_id := some 11
    match_reason := some MatchReason.EXACT }

/-- The annotated output row produced for sampleFuzzyLost when the
canonical input is empty. -/
def outRowLost : OutRow :=
  { unique_id := 3
    resolved_canonical_id := none
    original_address_concat := some "999 MYSTERY LANE"
    postcode := some "EE5 5EE"
    ukam_address_id := 3
    address_tokens := ["999", "mystery", "lane"]
    canonical_ukam_address_id := none
    match_reason := none }

/-- A deterministically resolved row of the exact-match input of the
combine stage. -/
def sampleExactDet : ExactInRow :=
  { unique_id := 1
    resolved_canonical_id := some 100
    ukam_address_id := 1
    canonical_ukam_address_id := some 10
    original_address_concat := some "4 SAMPLE STREET"
    postcode := some "CC3 3CC"
    match_reason := some MatchReason.EXACT }

/-- A probabilistic candidate for the same surrogate key. -/
def sampleSplinkCand : SplinkTopRow :=
  { unique_id := 1
    resolved_canonical_id := some 777
    ukam_address_id := 1
    canonical_ukam_address_id := some 77
    original_address_concat := some "4 SAMPLE STREET"
    postcode := some "CC3 3CC"
    match_reason := some MatchReason.SPLINK
    match_weight := some 12
    distinguishability := some 6
    distinguishability_category := some "high" }

/-- Hygiene of an input binding name: distinct from the reserved input
placeholder and from every name the compiler generates (fragment aliases
and seeds start with the letter s, temp tables with an underscore). -/
def goodKey (k : String) : Prop :=
  k ≠ "input" ∧ k.data.head? ≠ some 's' ∧ k.data.head? ≠ some '_'


/-- A stage whose single fragment references only the reserved input
placeholder and the registered input bindings, and whose fragment and
output names do not collide with them. -/
def goodStep (keys : List String) (step : PStep) : Prop :=
  (∃ f, step.frags = [f] ∧
    (∀ r ∈ f.tmpl.refs, r = "input" ∨ r ∈ keys) ∧
    f.name ≠ "input" ∧ f.name ∉ keys) ∧
  ∀ o, step.output = some o → o ≠ "input" ∧ o ∉ keys


/-- Simulation invariant between the plain run (sp, checkpoints
ignored) and the checkpointing run (sc): equal current chain value,
session tables equal to the inputs (plus materialised segments on the
checkpoint side), input bindings still resolving to themselves, no
binding of the reserved name input, and every queued alias starting
with the letter s. -/
def PipeInv (inputs : List (String × SRel)) (sp sc : PipeSt) : Prop :=
  chainVal sp.tables sp.queue = chainVal sc.tables sc.queue ∧
  sp.tables = inputs ∧
  (∃ extra, sc.tables = inputs ++ extra ∧
    ∀ kv ∈ extra, ∃ i, i < sc.seg ∧ kv.1 = "__seg_" ++ natStr i) ∧
  (∀ k ∈ inputs.map (fun kv => kv.1),
    alookup sp.aliasMap k = some k ∧ alookup sc.aliasMap k = some k) ∧
  alookup sp.aliasMap "input" = none ∧
  alookup sc.aliasMap "input" = none ∧
  (∀ f ∈ sp.queue, f.aliasName.data.head? = some 's') ∧
  (∀ f ∈ sc.queue, f.aliasName.data.head? = some 's')


/-- The state after add_step for a single-fragment stage, before any
checkpoint materialisation (spelling out renderPStep on one fragment). -/
def singleState (st : PipeSt) (step : PStep) (f : PFrag) : PipeSt :=
  { queue := st.queue ++ [⟨fragmentAlias st.counter step.name f.name, f.tmpl,
      resolveRef [] st.aliasMap (lastAliasOf st.queue)⟩]
    aliasMap :=
      match step.output with
      | some o =>
          if o.isEmpty then
            pyInsert st.aliasMap f.name (fragmentAlias st.counter step.name f.name)
          else
            setdefaultStr (pyInsert st.aliasMap o
                ((alookup [(f.name, fragmentAlias st.counter step.name f.name)]
                    o).getD (fragmentAlias st.counter step.name f.name)))
              f.name (fragmentAlias st.counter step.name f.name)
      | none =>
          pyInsert st.aliasMap f.name (fragmentAlias st.counter step.name f.name)
    tables := st.tables
    counter := st.counter + 1
    seg := st.seg }


/-- First stage of the checkpoint counterexample: appends 10 and binds
its fragment name a in the alias map. -/
def ckStage1 : PStep :=
  { name := "p1", frags := [⟨"a", tmplRef "input" (fun l => l ++ [10])⟩] }


/-- Second stage of the checkpoint counterexample: doubles every value
and is checkpointed. -/
def ckStage2 : PStep :=
  { name := "p2",
    frags := [⟨"b", tmplRef "input" (fun l => l.map (fun x => 2 * x))⟩],
    checkpoint := true }


/-- Third stage of the checkpoint counterexample: reads the placeholder
a, bound to the first stage output — remapped to the checkpoint seed by
_materialise_checkpoint. -/
def ckStage3 : PStep :=
  { name := "p3", frags := [⟨"c", tmplRef "a" id⟩] }


/-- Transparent variant of the third stage: references only input. -/
def ckStage3i : PStep :=
  { name := "p3", frags := [⟨"c", tmplRef "input" (fun l => l ++ [99])⟩] }


/-- A stage whose single fragment references a placeholder bound to no
alias at all: not input, not a prior fragment of the stage, not a key of
the alias map. -/
def mysteryStage : Stage :=
  { name := "st"
    steps := [{ name := "f1", sql := "SELECT * FROM \x7bmystery\x7d" }] }

/-! ## Theorems. -/

/-- C3: the claim lists "unmatched" among the wire values of the
MatchReason enumeration.  Evaluating the code: the enumeration has only
four members and MatchReason.enum_values() does not contain
"unmatched" — although input_filters.py reads MatchReason.UNMATCHED and
the tests cast the literal unmatched into ENUM enum_values(), so the
code contradicts its own callers and tests. -/
theorem c3_match_reason_enum_missing_unmatched :
    "unmatched" ∉ MatchReason.enumValues ∧
      MatchReason.enumValues =
        ["exact: full match", "trie: exact match with skips and fuzziness",
         "splink: probabilistic match", "unique_trigram: unique trigram match"] := by
  constructor
  · decide
  · rfl

/-- The item loop errors at the first unsupported item, reporting its
index relative to the start of the iterable. -/
theorem collectItems_first_other (d : String) (pre rest : List SpecItem)
    (h : ∀ it ∈ pre, it.isOther = false) :
    ∀ i : Nat,
      collectItems i (pre ++ SpecItem.other d :: rest) =
        .error (.typeErrorBadItem (i + pre.length) d) := by
  induction pre with
  | nil => intro i; simp [collectItems]
  | cons it pre ih =>
      intro i
      have hit : it.isOther = false := h it (by simp)
      have hpre : ∀ it ∈ pre, it.isOther = false := by
        intro x hx
        exact h x (by simp [hx])
      have hidx : i + (pre.length + 1) = (i + 1) + pre.length := by omega
      cases it with
      | step c =>
          simp only [List.cons_append, collectItems, List.append_eq,
            ih hpre (i + 1), Except.map, List.length_cons, hidx]
      | pair n s =>
          simp only [List.cons_append, collectItems, List.append_eq,
            ih hpre (i + 1), Except.map, List.length_cons, hidx]
      | other s => simp [SpecItem.isOther] at hit

/-- C10: a pipeline_stage factory whose body returns None raises a
TypeError; a body returning an empty iterable of steps raises a
ValueError; an iterable containing an item that is neither a CTEStep nor
a (name, sql) string pair raises a TypeError naming the index of the
first such item — always when the factory is called, before any Stage
value is produced. -/
theorem c10_stage_factory_error_behaviour (cfg : PipelineStageConfig) :
    pipeline_stage_factory cfg .noneSpec =
        .error .typeErrorNoneReturned ∧
      pipeline_stage_factory cfg (.items []) = .error .valueErrorEmpty ∧
      ∀ (pre : List SpecItem) (d : String) (rest : List SpecItem),
        (∀ it ∈ pre, it.isOther = false) →
        pipeline_stage_factory cfg (.items (pre ++ SpecItem.other d :: rest)) =
          .error (.typeErrorBadItem pre.length d) := by
  refine ⟨rfl, rfl, ?_⟩
  intro pre d rest h
  have hc := collectItems_first_other d pre rest h 0
  simp [pipeline_stage_factory, normalise_sql_step, hc, Except.map,
    Except.bind, bind]

/-- C10 witness: the three error behaviours at concrete factory inputs,
obtained by applying the theorem. -/
theorem c10_stage_factory_error_behaviour_witness :
    pipeline_stage_factory { name := "demo" } .noneSpec =
        .error .typeErrorNoneReturned ∧
      pipeline_stage_factory { name := "demo" } (.items []) =
        .error .valueErrorEmpty ∧
      pipeline_stage_factory { name := "demo" }
          (.items [SpecItem.pair "a" "SELECT 1", SpecItem.other "3"]) =
        .error (.typeErrorBadItem 1 "3") := by
  have h := c10_stage_factory_error_behaviour { name := "demo" }
  refine ⟨h.1, h.2.1, ?_⟩
  have h3 := h.2.2 [SpecItem.pair "a" "SELECT 1"] "3" [] (by decide)
  simpa using h3

/-- Upper-casing fixes characters that are not lower-case letters. -/
theorem asciiUpper_of_not_lower {c : Char} (h : ¬(97 ≤ c.toNat ∧ c.toNat ≤ 122)) :
    asciiUpper c = c := by
  simp [asciiUpper, h]

/-- Dropping while a predicate fails everywhere drops nothing. -/
theorem dropWhile_eq_self_of_none {p : Char → Bool} {l : List Char}
    (h : ∀ c ∈ l, p c = false) : l.dropWhile p = l := by
  cases l with
  | nil => rfl
  | cons a t => simp [List.dropWhile_cons, h a (by simp)]

/-- Stripping a string with no whitespace at all changes nothing. -/
theorem stripChars_eq_self {l : List Char}
    (h : ∀ c ∈ l, isPySpace c = false) : stripChars l = l := by
  unfold stripChars
  rw [dropWhile_eq_self_of_none h]
  rw [dropWhile_eq_self_of_none (by intro c hc; exact h c (List.mem_reverse.mp hc))]
  exact List.reverse_reverse l

/-- Collapsing whitespace in a string with no whitespace changes
nothing. -/
theorem collapseWsAux_eq_self {l : List Char}
    (h : ∀ c ∈ l, isPySpace c = false) :
    ∀ b : Bool, collapseWsAux b l = l := by
  induction l with
  | nil => intro b; rfl
  | cons a t ih =>
      intro b
      rw [collapseWsAux, if_neg (by simp [h a (by simp)])]
      rw [ih (by intro c hc; exact h c (by simp [hc])) false]

/-- Collapsing whitespace in a string with no whitespace changes
nothing. -/
theorem collapseWs_eq_self {l : List Char}
    (h : ∀ c ∈ l, isPySpace c = false) : collapseWs l = l :=
  collapseWsAux_eq_self h false

/-- No alias key matches at a position whose first character differs
from every key head. -/
theorem tryKeys_none_of_head {b : Bool} {c : Char} {rest : List Char}
    (hD : c ≠ 'D') (hS : c ≠ 'S') (hF : c ≠ 'F') (hT : c ≠ 'T')
    (hB : c ≠ 'B') (hI : c ≠ 'I') :
    tryKeys b (c :: rest) pyAliasesSorted = none := by
  have eD : ('D' == c) = false := by simp [Ne.symm hD]
  have eS : ('S' == c) = false := by simp [Ne.symm hS]
  have eF : ('F' == c) = false := by simp [Ne.symm hF]
  have eT : ('T' == c) = false := by simp [Ne.symm hT]
  have eB : ('B' == c) = false := by simp [Ne.symm hB]
  have eI : ('I' == c) = false := by simp [Ne.symm hI]
  simp [tryKeys, pyAliasesSorted, List.isPrefixOf, eD, eS, eF, eT, eB, eI]

/-- The alias substitution changes nothing when no character of the
input is the head of any alias key (for any fuel: the fuel-exhausted
branch also returns the input unchanged). -/
theorem aliasScanFuel_eq_self {l : List Char}
    (h : ∀ c ∈ l, c ≠ 'D' ∧ c ≠ 'S' ∧ c ≠ 'F' ∧ c ≠ 'T' ∧ c ≠ 'B' ∧ c ≠ 'I') :
    ∀ (b : Bool) (fuel : Nat), aliasScanFuel b fuel l = l := by
  induction l with
  | nil => intro b fuel; cases fuel <;> rfl
  | cons a t ih =>
      intro b fuel
      have ha := h a (by simp)
      cases fuel with
      | zero => rfl
      | succ fuel =>
          rw [aliasScanFuel,
            tryKeys_none_of_head ha.1 ha.2.1 ha.2.2.1 ha.2.2.2.1 ha.2.2.2.2.1
              ha.2.2.2.2.2]
          rw [ih (by intro c hc; exact h c (by simp [hc])) (isWordChar a) fuel]

/-- The alias substitution changes nothing when no character of the
input is the head of any alias key. -/
theorem aliasScan_eq_self {l : List Char}
    (h : ∀ c ∈ l, c ≠ 'D' ∧ c ≠ 'S' ∧ c ≠ 'F' ∧ c ≠ 'T' ∧ c ≠ 'B' ∧ c ≠ 'I') :
    ∀ b : Bool, aliasScan b l = l := by
  intro b
  exact aliasScanFuel_eq_self h b l.length

/-- A digit is not a lower-case letter, not whitespace, and not the head
of any alias key. -/
theorem digit_char_facts {c : Char} (h : isAsciiDigit c = true) :
    asciiUpper c = c ∧ isPySpace c = false ∧
      (c ≠ 'D' ∧ c ≠ 'S' ∧ c ≠ 'F' ∧ c ≠ 'T' ∧ c ≠ 'B' ∧ c ≠ 'I') := by
  simp only [isAsciiDigit, decide_eq_true_eq] at h
  refine ⟨asciiUpper_of_not_lower (by omega), ?_, ?_, ?_, ?_, ?_, ?_, ?_⟩
  · simp only [isPySpace, decide_eq_false_iff_not]
    omega
  all_goals
    intro heq
    subst heq
    simp_all

/-- Normalising a parametrised VARCHAR dtype, character level: the text
before the parenthesis is already upper case with no whitespace and no
alias key occurrence, so only the parenthesis cut applies. -/
theorem normaliseChars_varchar_param {p : List Char}
    (hp : ∀ c ∈ p, isAsciiDigit c = true) :
    normaliseChars ("VARCHAR(".data ++ p ++ [')']) = "VARCHAR".data := by
  set l := "VARCHAR(".data ++ p ++ [')'] with hl
  have hmem : ∀ c ∈ l, c ∈ "VARCHAR(".data ∨ c ∈ p ∨ c = ')' := by
    intro c hc
    rw [hl] at hc
    rcases List.mem_append.mp hc with h1 | h1
    · rcases List.mem_append.mp h1 with h2 | h2
      · exact Or.inl h2
      · exact Or.inr (Or.inl h2)
    · simp at h1
      exact Or.inr (Or.inr h1)
  have hmapself : ∀ (f : Char → Char) (xs : List Char),
      (∀ c ∈ xs, f c = c) → xs.map f = xs := by
    intro f xs hf
    induction xs with
    | nil => rfl
    | cons a t ih =>
        simp only [List.map_cons, hf a (by simp)]
        rw [ih (by intro c hc; exact hf c (by simp [hc]))]
  have hupper : l.map asciiUpper = l := by
    apply hmapself
    intro c hc
    rcases hmem c hc with h1 | h1 | h1
    · fin_cases h1 <;> decide
    · exact (digit_char_facts (hp c h1)).1
    · subst h1; decide
  have hnospace : ∀ c ∈ l, isPySpace c = false := by
    intro c hc
    rcases hmem c hc with h1 | h1 | h1
    · fin_cases h1 <;> decide
    · exact (digit_char_facts (hp c h1)).2.1
    · subst h1; decide
  have hnokey : ∀ c ∈ l,
      c ≠ 'D' ∧ c ≠ 'S' ∧ c ≠ 'F' ∧ c ≠ 'T' ∧ c ≠ 'B' ∧ c ≠ 'I' := by
    intro c hc
    rcases hmem c hc with h1 | h1 | h1
    · fin_cases h1 <;> refine ⟨by decide, by decide, by decide, by decide,
        by decide, by decide⟩
    · exact (digit_char_facts (hp c h1)).2.2
    · subst h1
      refine ⟨by decide, by decide, by decide, by decide, by decide, by decide⟩
  have hcontains : l.contains '(' = true := by
    have : '(' ∈ l := by
      rw [hl]
      exact List.mem_append.mpr (Or.inl (List.mem_append.mpr (Or.inl (by decide))))
    simpa [List.contains] using List.elem_iff.mpr this
  have htake :
      l.takeWhile (fun c => c != '(') = "VARCHAR".data := by
    rw [hl]
    have hsplit : "VARCHAR(".data ++ p ++ [')'] =
        'V' :: 'A' :: 'R' :: 'C' :: 'H' :: 'A' :: 'R' :: '(' :: (p ++ [')']) := by
      simp
    rw [hsplit]
    have bV : ('V' != '(') = true := by decide
    have bA : ('A' != '(') = true := by decide
    have bR : ('R' != '(') = true := by decide
    have bC : ('C' != '(') = true := by decide
    have bH : ('H' != '(') = true := by decide
    have bP : ('(' != '(') = false := by decide
    simp only [List.takeWhile_cons, bV, bA, bR, bC, bH, bP,
      eq_self_iff_true, if_true, Bool.false_eq_true, if_false]
  show (if (aliasScan false (collapseWs (stripChars (l.map asciiUpper)))).contains '(' = true
      then stripChars ((aliasScan false (collapseWs (stripChars
        (l.map asciiUpper)))).takeWhile (fun c => c != '('))
      else aliasScan false (collapseWs (stripChars (l.map asciiUpper)))) =
    "VARCHAR".data
  rw [hupper, stripChars_eq_self hnospace, collapseWs_eq_self hnospace,
    aliasScan_eq_self hnokey false, if_pos hcontains, htake]
  exact stripChars_eq_self (by intro c hc; fin_cases hc <;> decide)

/-- Normalising the plain VARCHAR dtype leaves it unchanged. -/
theorem normaliseDtype_varchar : normaliseDtype "VARCHAR" = "VARCHAR" := by
  decide

/-- The TEXT alias normalises to VARCHAR. -/
theorem normaliseDtype_text : normaliseDtype "TEXT" = "VARCHAR" := by
  decide

/-- Any digit-parametrised VARCHAR dtype normalises to VARCHAR. -/
theorem normaliseDtype_varchar_param {p : String}
    (hp : ∀ c ∈ p.data, isAsciiDigit c = true) :
    normaliseDtype ("VARCHAR(" ++ p ++ ")") = "VARCHAR" := by
  have hd : ("VARCHAR(" ++ p ++ ")").data = "VARCHAR(".data ++ p.data ++ [')'] := by
    simp [String.data_append]
  show String.mk (normaliseChars ("VARCHAR(" ++ p ++ ")").data) = "VARCHAR"
  rw [hd, normaliseChars_varchar_param hp]

/-- A Python dict built from pairs with pairwise distinct keys keeps all
the pairs unchanged. -/
theorem pyDict_eq_self {α : Type} (xs : List (String × α))
    (hx : (xs.map Prod.fst).Nodup) : pyDict xs = xs := by
  suffices h : ∀ (ys acc : List (String × α)),
      (ys.map Prod.fst).Nodup →
      (∀ kv ∈ ys, ∀ e ∈ acc, e.1 ≠ kv.1) →
      ys.foldl
        (fun acc kv =>
          if acc.any (fun e => e.1 == kv.1) then
            acc.map (fun e => if e.1 == kv.1 then (e.1, kv.2) else e)
          else acc ++ [kv])
        acc = acc ++ ys by
    simpa [pyDict] using h xs [] hx (by simp)
  intro ys
  induction ys with
  | nil => intro acc _ _; simp
  | cons kv ys ih =>
      intro acc hn hd
      have hany : (acc.any (fun e => e.1 == kv.1)) = false := by
        rw [List.any_eq_false]
        intro e he
        simpa using hd kv (by simp) e he
      have hmapcons : (List.map Prod.fst (kv :: ys)) = kv.1 :: ys.map Prod.fst := by
        simp
      have hn' := List.nodup_cons.mp (hmapcons ▸ hn)
      simp only [List.foldl_cons, hany, Bool.false_eq_true, if_false]
      rw [ih (acc ++ [kv]) hn'.2]
      · simp
      · intro kv' hkv' e he
        rcases List.mem_append.mp he with h1 | h1
        · exact hd kv' (by simp [hkv']) e h1
        · have he2 : e = kv := by simpa using h1
          rw [he2]
          intro hcontra
          exact hn'.1 (by
            rw [hcontra]
            exact List.mem_map.mpr ⟨kv', hkv', rfl⟩)

/-- validateCore reports nothing for a single typed requirement whose
column is present and whose normalised pair is among the schema pairs. -/
theorem validateCore_nil_single (label : String) (presentNames : List String)
    (typedPairs : List ColumnSpec) (normMap : List (String × Option String))
    (name : String) (hpres : name ∈ presentNames)
    (htyped : ColumnSpec.mk name (some "VARCHAR") ∈ typedPairs) :
    validateCore label presentNames typedPairs normMap [name]
      [⟨name, some "VARCHAR"⟩] = [] := by
  have hfil : ([name].filter (fun m => !presentNames.contains m)) = [] := by
    simp [List.filter_cons, hpres]
  have hcont : typedPairs.contains (ColumnSpec.mk name (some "VARCHAR")) = true := by
    exact List.elem_iff.mpr htyped
  show ((([name].dedup.filter (fun m => !presentNames.contains m)).mergeSort
      (fun a b => a ≤ b)).map (fun m => ValidationError.missingColumn label m))
    ++ ((([(⟨name, some "VARCHAR"⟩ : ColumnSpec)].dedup).mergeSort
      (fun a b => a.name ≤ b.name)).filterMap (fun exp =>
        if (([name].dedup.filter (fun m => !presentNames.contains m)).mergeSort
            (fun a b => a ≤ b)).contains exp.name then none
        else if typedPairs.contains exp then none
        else some (ValidationError.typeMismatch label exp.name
          (exp.dtype.getD "") ((alookup normMap exp.name).getD none)))) = []
  have hded : ∀ (x : String), ([x] : List String).dedup = [x] := by
    intro x; simp
  have hdedc : ∀ (x : ColumnSpec), ([x] : List ColumnSpec).dedup = [x] := by
    intro x; simp
  rw [hded name, hdedc, hfil]
  simp [List.filterMap_cons, hcont, htyped]

/-- C9: dtype validation compares types only up to normalisation
(upper-casing, whitespace collapsing, parameter stripping and the
TEXT/STRING/FLOAT/DOUBLE PRECISION/INT/BOOL aliases), so a relation
column declared TEXT, or VARCHAR with any digit parameter, satisfies a
required ColumnSpec dtype of VARCHAR with no error (schemas list each
column name once, as a relation does). -/
theorem c9_dtype_normalisation_text_varchar
    (label : String) (schema : List (String × String)) (name p : String)
    (hnodup : (schema.map Prod.fst).Nodup)
    (hmem : (name, "TEXT") ∈ schema ∨
      ((∀ c ∈ p.data, isAsciiDigit c = true) ∧
        (name, "VARCHAR(" ++ p ++ ")") ∈ schema)) :
    validate_table label schema [⟨name, some "VARCHAR"⟩] = [] := by
  obtain ⟨d, hd, hdnorm⟩ :
      ∃ d, (name, d) ∈ schema ∧ normaliseDtype d = "VARCHAR" := by
    rcases hmem with h | ⟨hp, h⟩
    · exact ⟨"TEXT", h, normaliseDtype_text⟩
    · exact ⟨"VARCHAR(" ++ p ++ ")", h, normaliseDtype_varchar_param hp⟩
  have hpresent : name ∈ schema.map Prod.fst :=
    List.mem_map.mpr ⟨(name, d), hd, rfl⟩
  have hmapped : (name, some "VARCHAR") ∈
      schema.map (fun nt => (nt.1, some (normaliseDtype nt.2))) := by
    apply List.mem_map.mpr
    exact ⟨(name, d), hd, by simp [hdnorm]⟩
  have hkeys : ((schema.map (fun nt =>
      (nt.1, some (normaliseDtype nt.2)))).map Prod.fst).Nodup := by
    rw [List.map_map]
    simpa using hnodup
  have hdict := pyDict_eq_self _ hkeys
  have htyped : (⟨name, some "VARCHAR"⟩ : ColumnSpec) ∈
      (pyDict (schema.map (fun nt =>
        (nt.1, some (normaliseDtype nt.2))))).map
        (fun nt => ColumnSpec.mk nt.1 nt.2) := by
    rw [hdict]
    exact List.mem_map.mpr ⟨(name, some "VARCHAR"), hmapped, rfl⟩
  show validateCore label (schema.map Prod.fst)
      ((pyDict (schema.map (fun nt => (nt.1, some (normaliseDtype nt.2))))).map
        (fun nt => ColumnSpec.mk nt.1 nt.2))
      (pyDict (schema.map (fun nt => (nt.1, some (normaliseDtype nt.2)))))
      [name] [⟨name, some (normaliseDtype "VARCHAR")⟩] = []
  rw [normaliseDtype_varchar]
  exact validateCore_nil_single label _ _ _ name hpresent htyped

/-- C9 witness: a concrete relation whose unique_id column is declared
TEXT passes a required VARCHAR spec with no errors. -/
theorem c9_dtype_normalisation_text_varchar_witness :
    validate_table "input_table"
      [("unique_id", "TEXT"), ("postcode", "VARCHAR")]
      [⟨"unique_id", some "VARCHAR"⟩] = [] := by
  exact c9_dtype_normalisation_text_varchar "input_table"
    [("unique_id", "TEXT"), ("postcode", "VARCHAR")] "unique_id" "30"
    (by decide) (Or.inl (by decide))

/-- Membership in the restricted canonical relation comes from a
canonical input row with non-null identifier and postcode, carrying the
same address, identifiers and tokens. -/
theorem restrict_mem {strategy : PostcodeStrategy} {fuzzy : List FuzzyRow}
    {canonical : List CanonRow} {r : RestrictedRow}
    (hr : r ∈ restrict_canonical_to_fuzzy_postcodes strategy fuzzy canonical) :
    ∃ c ∈ canonical, c.unique_id = some r.canonical_unique_id ∧
      c.ukam_address_id = r.ukam_address_id ∧
      c.original_address_concat = r.original_address_concat ∧
      c.postcode = some r.postcode ∧
      c.address_tokens = r.address_tokens := by
  unfold restrict_canonical_to_fuzzy_postcodes at hr
  obtain ⟨c, hc, hmem⟩ := List.mem_flatMap.mp hr
  refine ⟨c, hc, ?_⟩
  rcases hck : canonKeyExpr strategy c with _ | k
  · rw [hck] at hmem; simp at hmem
  rcases hcp : c.postcode with _ | p
  · rw [hck, hcp] at hmem; simp at hmem
  rcases hcu : c.unique_id with _ | uid
  · rw [hck, hcp, hcu] at hmem; simp at hmem
  rw [hck, hcp, hcu] at hmem
  dsimp only at hmem
  by_cases hk : k ∈ (fuzzy.filterMap (fuzzyKeyExpr strategy)).dedup
  · rw [if_pos hk] at hmem
    simp only [List.mem_singleton] at hmem
    subst hmem
    simp [hcu, hcp]
  · rw [if_neg hk] at hmem
    simp at hmem

/-- Each match row of the hash-exact stage comes from one fuzzy row
(whose surrogate key it keeps) and the first matching restricted row. -/
theorem annotate_mem {restricted : List RestrictedRow} {fuzzy : List FuzzyRow}
    {m : MatchRow} (hm : m ∈ annotate_exact_matches restricted fuzzy) :
    ∃ f ∈ fuzzy, ∃ canon ∈ restricted,
      sqlEqStr f.original_address_concat canon.original_address_concat = true ∧
      f.postcode = some canon.postcode ∧
      m = { ukam_address_id := f.ukam_address_id
            canonical_ukam_address_id := canon.ukam_address_id
            resolved_canonical_id := canon.canonical_unique_id
            match_reason := MatchReason.EXACT } := by
  unfold annotate_exact_matches at hm
  obtain ⟨f, hf, hsome⟩ := List.mem_filterMap.mp hm
  rcases hh : (restricted.filter (fun canon =>
      sqlEqStr f.original_address_concat canon.original_address_concat &&
        f.postcode == some canon.postcode)).head? with _ | canon
  · rw [hh] at hsome; simp at hsome
  rw [hh] at hsome
  have hmrow := Option.some.inj hsome
  have hcmem := List.mem_of_mem_head? (Option.mem_def.mpr hh)
  have hfil := List.mem_filter.mp hcmem
  have hcond := hfil.2
  simp only [Bool.and_eq_true, beq_iff_eq] at hcond
  exact ⟨f, hf, canon, hfil.1, hcond.1, hcond.2, hmrow.symm⟩

/-- A filterMap that preserves a key produces at most as many rows with
key u as the input has. -/
theorem filterMap_key_filter_le {α β : Type} (key : α → Nat) (key2 : β → Nat)
    (g : α → Option β) (hg : ∀ a b, g a = some b → key2 b = key a) (u : Nat) :
    ∀ l : List α,
      ((l.filterMap g).filter (fun b => key2 b == u)).length ≤
        ((l.map key).filter (fun x => x == u)).length := by
  intro l
  induction l with
  | nil => simp
  | cons a rest ih =>
      rcases hga : g a with _ | b
      · rw [List.filterMap_cons, hga]
        calc ((rest.filterMap g).filter (fun b => key2 b == u)).length ≤ _ := ih
        _ ≤ _ := by
          rw [List.map_cons, List.filter_cons]
          split <;> simp
      · rw [List.filterMap_cons, hga, List.filter_cons, List.map_cons,
          List.filter_cons, hg a b hga]
        split
        · simp only [List.length_cons]
          omega
        · exact le_trans ih (by simp)

/-- With pairwise distinct keys, a list has at most one element of each
key. -/
theorem filter_key_le_one {α : Type} (key : α → Nat) (l : List α)
    (hnodup : (l.map key).Nodup) (u : Nat) :
    ((l.map key).filter (fun x => x == u)).length ≤ 1 := by
  rw [← List.countP_eq_length_filter]
  have h := List.nodup_iff_count_le_one.mp hnodup u
  simpa [List.count] using h

/-- C4 counterexample: with two canonical duplicates of the same
address and postcode, listed with the higher identifier first, the
hash-exact stage (restrict then annotate, as registered) resolves the
fuzzy record to the identifier 101 — the first matching canonical row —
although the duplicate with the lower identifier 100 also matches, so
the stage does not pick the minimum-identifier duplicate. -/
theorem c4_exact_stage_picks_first_not_lowest :
    annotate_exact_matches
        (restrict_canonical_to_fuzzy_postcodes .exact [sampleFuzzy]
          [sampleCanonHigh, sampleCanonLow]) [sampleFuzzy] =
      [{ ukam_address_id := 1, canonical_ukam_address_id := 11,
         resolved_canonical_id := 101, match_reason := .EXACT }] ∧
      sampleCanonLow.unique_id = some 100 ∧
      sampleCanonLow.original_address_concat =
        sampleFuzzy.original_address_concat ∧
      sampleCanonLow.postcode = sampleFuzzy.postcode ∧
      (100 : Int) < 101 := by
  refine ⟨by decide, rfl, rfl, rfl, by decide⟩

/-- C4 amended: the hash-exact stage resolves each fuzzy record to at
most one canonical row, and any resolution is a canonical input row
that matches the fuzzy record on address and postcode — it is the first
matching duplicate in the canonical relation order (LIMIT 1 with no
ORDER BY), not necessarily the one with the lowest identifier. -/
theorem c4_exact_stage_single_sound_match
    (fuzzy : List FuzzyRow) (canonical : List CanonRow) (f : FuzzyRow)
    (hnodup : (fuzzy.map (·.ukam_address_id)).Nodup) (hf : f ∈ fuzzy) :
    ((annotate_exact_matches
        (restrict_canonical_to_fuzzy_postcodes .exact fuzzy canonical)
        fuzzy).filter
          (fun m => m.ukam_address_id == f.ukam_address_id)).length ≤ 1 ∧
      ∀ m ∈ annotate_exact_matches
          (restrict_canonical_to_fuzzy_postcodes .exact fuzzy canonical) fuzzy,
        m.ukam_address_id = f.ukam_address_id →
        ∃ c ∈ canonical, c.unique_id = some m.resolved_canonical_id ∧
          c.ukam_address_id = m.canonical_ukam_address_id ∧
          sqlEqStr f.original_address_concat c.original_address_concat = true ∧
          f.postcode = c.postcode := by
  constructor
  · unfold annotate_exact_matches
    refine le_trans
      (filterMap_key_filter_le (fun f : FuzzyRow => f.ukam_address_id)
        (fun m : MatchRow => m.ukam_address_id) _
        ?_ f.ukam_address_id fuzzy)
      (filter_key_le_one (fun f : FuzzyRow => f.ukam_address_id) fuzzy hnodup _)
    intro a b hab
    rcases hh : ((restrict_canonical_to_fuzzy_postcodes .exact fuzzy
        canonical).filter (fun canon =>
          sqlEqStr a.original_address_concat
            canon.original_address_concat &&
          a.postcode == some canon.postcode)).head? with _ | canon
    · rw [hh] at hab
      simp at hab
    · rw [hh] at hab
      have hb := Option.some.inj hab
      rw [← hb]
  · intro m hm hmu
    obtain ⟨f2, hf2, canon, hcanon, haddr, hpc, hrow⟩ := annotate_mem hm
    have hmu2 : m.ukam_address_id = f2.ukam_address_id := by rw [hrow]
    have hfeq : f2 = f :=
      List.inj_on_of_nodup_map hnodup hf2 hf (by rw [← hmu2, hmu])
    subst hfeq
    obtain ⟨c, hc, hcu, hcukam, hcaddr, hcpc, _⟩ := restrict_mem hcanon
    refine ⟨c, hc, ?_, ?_, ?_, ?_⟩
    · rw [hrow]; exact hcu
    · rw [hrow]; exact hcukam
    · rw [hcaddr]; exact haddr
    · rw [hpc, hcpc]

/-- C4 amended witness: the single-sound-match property at the concrete
duplicate-canonical inputs. -/
theorem c4_exact_stage_single_sound_match_witness :
    ((annotate_exact_matches
        (restrict_canonical_to_fuzzy_postcodes .exact [sampleFuzzy]
          [sampleCanonHigh, sampleCanonLow]) [sampleFuzzy]).filter
          (fun m => m.ukam_address_id == sampleFuzzy.ukam_address_id)).length ≤ 1 ∧
      ∀ m ∈ annotate_exact_matches
          (restrict_canonical_to_fuzzy_postcodes .exact [sampleFuzzy]
            [sampleCanonHigh, sampleCanonLow]) [sampleFuzzy],
        m.ukam_address_id = sampleFuzzy.ukam_address_id →
        ∃ c ∈ [sampleCanonHigh, sampleCanonLow],
          c.unique_id = some m.resolved_canonical_id ∧
          c.ukam_address_id = m.canonical_ukam_address_id ∧
          sqlEqStr sampleFuzzy.original_address_concat
            c.original_address_concat = true ∧
          sampleFuzzy.postcode = c.postcode := by
  exact c4_exact_stage_single_sound_match [sampleFuzzy]
    [sampleCanonHigh, sampleCanonLow] sampleFuzzy (by decide) (by decide)

/-- Every row of the finalising left join is either an unmatched row
with every annotation column null, or a matched row with every
annotation column non-null: the null-iff equivalence holds and a
non-null match_reason forces both identifier columns non-null. -/
theorem finalise_results_null_iff {fuzzy : List FuzzyRow}
    {M : List MatchRow} :
    ∀ row ∈ finalise_results fuzzy M,
      (row.match_reason = none ↔
        (row.resolved_canonical_id = none ∧
          row.canonical_ukam_address_id = none)) ∧
      (∀ r, row.match_reason = some r →
        row.resolved_canonical_id ≠ none ∧
        row.canonical_ukam_address_id ≠ none) := by
  intro row hrow
  obtain ⟨f, hf, hmem⟩ := List.mem_flatMap.mp hrow
  rcases hfil : M.filter (fun m => m.ukam_address_id == f.ukam_address_id)
    with _ | ⟨m0, ms⟩
  · rw [hfil] at hmem
    simp only [List.mem_singleton] at hmem
    subst hmem
    refine ⟨by simp, ?_⟩
    intro r hr
    simp at hr
  · rw [hfil] at hmem
    obtain ⟨m1, _, hrow1⟩ := List.mem_map.mp hmem
    subst hrow1
    refine ⟨by simp, ?_⟩
    intro r hr
    simp

/-- C2 counterexample: a fuzzy record with no canonical counterpart
comes back with both identifier columns null, but its match_reason is
the SQL NULL, not the label unmatched — the output of
run_deterministic_match_pass never carries an unmatched label, so the
claimed iff fails right to left. -/
theorem c2_unmatched_rows_have_null_reason_counterexample :
    run_deterministic_match_pass trivialFind trivialHash [sampleFuzzyLost]
        [] [] = .ok (.annotated [outRowLost]) ∧
      outRowLost.resolved_canonical_id = none ∧
      outRowLost.canonical_ukam_address_id = none ∧
      outRowLost.match_reason.map MatchReason.value ≠ some "unmatched" := by
  refine ⟨by rfl, rfl, rfl, by decide⟩

/-- C2 amended: in every annotated output of the deterministic match
pass, match_reason is null exactly when both resolved_canonical_id and
canonical_ukam_address_id are null, and a non-null match_reason implies
both identifier columns are non-null (the unmatched state is encoded as
SQL NULL, not as an unmatched label). -/
theorem c2_match_reason_null_iff_ids_null
    (find : List String → List (Nat × List String) → Option Nat)
    (hash : String → Nat) (fuzzy : List FuzzyRow) (canonical : List CanonRow)
    (enabled : List StageName) (rows : List OutRow)
    (hrun : run_deterministic_match_pass find hash fuzzy canonical enabled =
      .ok (.annotated rows)) :
    ∀ row ∈ rows,
      (row.match_reason = none ↔
        (row.resolved_canonical_id = none ∧
          row.canonical_ukam_address_id = none)) ∧
      (∀ r, row.match_reason = some r →
        row.resolved_canonical_id ≠ none ∧
        row.canonical_ukam_address_id ≠ none) := by
  unfold run_deterministic_match_pass at hrun
  rcases hloop : runLoop find hash fuzzy canonical (orderedStages enabled) none
    with msg | mu
  · rw [hloop] at hrun
    simp [Except.map] at hrun
  rw [hloop] at hrun
  rcases mu with _ | m
  · simp [Except.map] at hrun
  simp only [Except.map] at hrun
  have hres := Except.ok.inj hrun
  have hrows : rows = finalise_results fuzzy (narrowProjection m) := by
    cases hres
    rfl
  rw [hrows]
  exact finalise_results_null_iff

/-- C2 amended witness: the invariant at a concrete run producing one
matched and one unmatched row, instantiated at the matched row so the
non-null conjunct is exercised. -/
theorem c2_match_reason_null_iff_ids_null_witness :
    ((outRowMatched.match_reason = none ↔
        (outRowMatched.resolved_canonical_id = none ∧
          outRowMatched.canonical_ukam_address_id = none)) ∧
      (∀ r, outRowMatched.match_reason = some r →
        outRowMatched.resolved_canonical_id ≠ none ∧
        outRowMatched.canonical_ukam_address_id ≠ none)) := by
  exact c2_match_reason_null_iff_ids_null trivialFind trivialHash
    [sampleFuzzy, sampleFuzzyLost] [sampleCanonHigh, sampleCanonLow] []
    [outRowMatched, outRowLost] (by rfl) outRowMatched (by simp)

/-- C8: evaluating run_deterministic_match_pass on empty inputs.  A
zero-row fuzzy input breaks out of the loop before any stage and the
original relation is passed through; a zero-row canonical input with the
default stage list yields the all-unmatched annotated output; but with
the advertised unique_trigram stage enabled, a zero-row canonical input
makes the pass raise the positional-union binder error (the trigram
stage emits seven columns, the accumulated exact matches four), so the
never-raises part of the claim fails. -/
theorem c8_empty_inputs_behaviour :
    run_deterministic_match_pass trivialFind trivialHash [] [sampleCanonLow]
        [.TRIE] = .ok (.passThrough []) ∧
      run_deterministic_match_pass trivialFind trivialHash [sampleFuzzy] []
        [] = .ok (.annotated
          [{ unique_id := 1
             resolved_canonical_id := none
             original_address_concat := some "4 SAMPLE STREET"
             postcode := some "CC3 3CC"
             ukam_address_id := 1
             address_tokens := ["4", "sample", "street"]
             canonical_ukam_address_id := none
             match_reason := none }]) ∧
      run_deterministic_match_pass trivialFind trivialHash [sampleFuzzy] []
        [.UNIQUE_TRIGRAM] = .error unionColumnMismatchMsg := by
  refine ⟨by rfl, by rfl, by rfl⟩

/-- C1: evaluating run_deterministic_match_pass at a failing input.
With the unique_trigram stage enabled and a record left unresolved by
the hash-exact stage, matches_union.union(stage_result) combines the
four-column exact result with the seven-column trigram result and the
engine raises a positional-union binder error — no relation of |F| rows
is returned at all, although the same input without that stage does
return exactly the one input row with its surrogate key unchanged. -/
theorem c1_trigram_stage_union_raises :
    run_deterministic_match_pass trivialFind trivialHash [sampleFuzzyLost]
        [sampleCanonLow] [.UNIQUE_TRIGRAM] = .error unionColumnMismatchMsg ∧
      run_deterministic_match_pass trivialFind trivialHash [sampleFuzzyLost]
        [sampleCanonLow] [] = .ok (.annotated [outRowLost]) := by
  refine ⟨by rfl, by rfl⟩

/-- Every output row of the final join carries the fields of some
combined row. -/
theorem match_candidates_proj {canonProj : List CanonicalProjectionRow}
    {combined : List CombinedMatchRow} {row : CandidateRow}
    (h : row ∈ match_candidates canonProj combined) :
    ∃ crow ∈ combined,
      row.ukam_address_id = crow.ukam_address_id ∧
      row.match_reason = crow.match_reason ∧
      row.match_weight = crow.match_weight ∧
      row.distinguishability = crow.distinguishability ∧
      row.resolved_canonical_id = crow.resolved_canonical_id := by
  unfold match_candidates at h
  have h2 := List.mem_mergeSort.mp h
  obtain ⟨crow, hcrow, hmem⟩ := List.mem_flatMap.mp h2
  refine ⟨crow, hcrow, ?_⟩
  rcases hcm : (match crow.canonical_ukam_address_id with
      | none => ([] : List CanonicalProjectionRow)
      | some cu => canonProj.filter (fun c => c.ukam_address_id == cu))
    with _ | ⟨c0, cs⟩
  · rw [hcm] at hmem
    simp only [List.mem_singleton] at hmem
    subst hmem
    exact ⟨rfl, rfl, rfl, rfl, rfl⟩
  · rw [hcm] at hmem
    obtain ⟨c1, _, hrow1⟩ := List.mem_map.mp hmem
    subst hrow1
    exact ⟨rfl, rfl, rfl, rfl, rfl⟩

/-- Every combined row produces at least one output row of the final
join, carrying its fields. -/
theorem match_candidates_exists {canonProj : List CanonicalProjectionRow}
    {combined : List CombinedMatchRow} {crow : CombinedMatchRow}
    (h : crow ∈ combined) :
    ∃ row ∈ match_candidates canonProj combined,
      row.ukam_address_id = crow.ukam_address_id ∧
      row.match_reason = crow.match_reason ∧
      row.match_weight = crow.match_weight ∧
      row.distinguishability = crow.distinguishability ∧
      row.resolved_canonical_id = crow.resolved_canonical_id := by
  rcases hcm : (match crow.canonical_ukam_address_id with
      | none => ([] : List CanonicalProjectionRow)
      | some cu => canonProj.filter (fun c => c.ukam_address_id == cu))
    with _ | ⟨c0, cs⟩
  · refine ⟨candidate_of crow none, ?_, rfl, rfl, rfl, rfl, rfl⟩
    unfold match_candidates
    apply List.mem_mergeSort.mpr
    apply List.mem_flatMap.mpr
    refine ⟨crow, h, ?_⟩
    rw [hcm]
    simp
  · refine ⟨candidate_of crow (some c0), ?_, rfl, rfl, rfl, rfl, rfl⟩
    unfold match_candidates
    apply List.mem_mergeSort.mpr
    apply List.mem_flatMap.mpr
    refine ⟨crow, h, ?_⟩
    rw [hcm]
    simp

/-- A combined row is an exact row with nulled weights or a splink row
whose surrogate key was not deterministically matched. -/
theorem combined_matches_mem {include_unmatched : Bool}
    {exactMatches : List ExactInRow} {splinkTop : List SplinkTopRow}
    {crow : CombinedMatchRow}
    (h : crow ∈ combined_matches include_unmatched exactMatches splinkTop) :
    (∃ e ∈ exact_filtered include_unmatched exactMatches splinkTop,
        crow = exact_combined_row e) ∨
      (∃ s ∈ splinkTop,
        (!(matched_exact_ukams exactMatches).contains s.ukam_address_id) = true ∧
        crow = splink_combined_row s) := by
  unfold combined_matches at h
  rcases List.mem_append.mp h with h1 | h1
  · obtain ⟨e, he, hrow⟩ := List.mem_map.mp h1
    exact Or.inl ⟨e, he, hrow.symm⟩
  · obtain ⟨s, hs, hrow⟩ := List.mem_map.mp h1
    have hs2 := List.mem_filter.mp hs
    exact Or.inr ⟨s, hs2.1, hs2.2, hrow.symm⟩

/-- C5: in the merged match-candidate output, every record resolved
deterministically surfaces with its deterministic resolution and null
match_weight and distinguishability; all output rows for its surrogate
key show that deterministic resolution, never a probabilistic
candidate; and rows with the probabilistic splink reason only occur for
surrogate keys that were not resolved deterministically.  Hypotheses:
the exact input has distinct surrogate keys (the data-model guarantee)
and never carries the splink reason (deterministic outputs carry exact,
trie or unique_trigram). -/
theorem c5_deterministic_precedence (include_unmatched : Bool)
    (exactMatches : List ExactInRow) (splinkTop : List SplinkTopRow)
    (canonical : List CanonRow) (e : ExactInRow) (r : MatchReason)
    (hnodup : (exactMatches.map (·.ukam_address_id)).Nodup)
    (he : e ∈ exactMatches) (hr : e.match_reason = some r)
    (hnosplink : ∀ e2 ∈ exactMatches,
      e2.match_reason ≠ some MatchReason.SPLINK) :
    (∃ row ∈ combine_exact_and_splink_matches include_unmatched exactMatches
        splinkTop canonical,
      row.ukam_address_id = e.ukam_address_id ∧
      row.resolved_canonical_id = e.resolved_canonical_id ∧
      row.match_reason = some r ∧
      row.match_weight = none ∧ row.distinguishability = none) ∧
    (∀ row ∈ combine_exact_and_splink_matches include_unmatched exactMatches
        splinkTop canonical,
      row.ukam_address_id = e.ukam_address_id →
      row.resolved_canonical_id = e.resolved_canonical_id ∧
      row.match_reason = some r ∧
      row.match_weight = none ∧ row.distinguishability = none) ∧
    (∀ row ∈ combine_exact_and_splink_matches include_unmatched exactMatches
        splinkTop canonical,
      row.match_reason = some MatchReason.SPLINK →
      row.ukam_address_id ∉ matched_exact_ukams exactMatches) := by
  have hefil : e ∈ exact_filtered include_unmatched exactMatches splinkTop := by
    unfold exact_filtered
    split
    · exact List.mem_filter.mpr ⟨he, by simp [hr]⟩
    · exact List.mem_filter.mpr ⟨he, by simp [hr]⟩
  have hematched : e.ukam_address_id ∈ matched_exact_ukams exactMatches := by
    unfold matched_exact_ukams
    exact List.mem_map.mpr ⟨e, List.mem_filter.mpr ⟨he, by simp [hr]⟩, rfl⟩
  have hcrow : exact_combined_row e ∈
      combined_matches include_unmatched exactMatches splinkTop := by
    unfold combined_matches
    exact List.mem_append.mpr (Or.inl (List.mem_map.mpr ⟨e, hefil, rfl⟩))
  refine ⟨?_, ?_, ?_⟩
  · obtain ⟨row, hrow, h1, h2, h3, h4, h5⟩ :=
      @match_candidates_exists (canonical_projection canonical) _ _ hcrow
    exact ⟨row, hrow, h1, h5, by rw [h2]; exact hr, h3, h4⟩
  · intro row hrow hukam
    obtain ⟨crow, hcrow2, h1, h2, h3, h4, h5⟩ := match_candidates_proj hrow
    rcases combined_matches_mem hcrow2 with ⟨e2, he2fil, hce⟩ | ⟨s, _, hguard, hcs⟩
    · have he2 : e2 ∈ exactMatches := by
        unfold exact_filtered at he2fil
        split at he2fil <;> exact List.mem_of_mem_filter he2fil
      have heq : e2 = e := by
        apply List.inj_on_of_nodup_map hnodup he2 he
        have : crow.ukam_address_id = e2.ukam_address_id := by
          rw [hce]; rfl
        rw [← this, ← h1, hukam]
      subst heq
      rw [hce] at h2 h3 h4 h5
      exact ⟨by rw [h5]; rfl, by rw [h2]; exact hr, by rw [h3]; rfl,
        by rw [h4]; rfl⟩
    · exfalso
      have : crow.ukam_address_id = s.ukam_address_id := by rw [hcs]; rfl
      have hsu : s.ukam_address_id = e.ukam_address_id := by
        rw [← this, ← h1, hukam]
      rw [Bool.not_eq_eq_eq_not] at hguard
      have : (matched_exact_ukams exactMatches).contains s.ukam_address_id =
          true := by
        rw [hsu]
        exact List.elem_iff.mpr hematched
      simp [this] at hguard
      exact hguard (by rw [hsu]; exact hematched)
  · intro row hrow hreason
    obtain ⟨crow, hcrow2, h1, h2, _, _, _⟩ := match_candidates_proj hrow
    rcases combined_matches_mem hcrow2 with ⟨e2, he2fil, hce⟩ | ⟨s, _, hguard, hcs⟩
    · exfalso
      have he2 : e2 ∈ exactMatches := by
        unfold exact_filtered at he2fil
        split at he2fil <;> exact List.mem_of_mem_filter he2fil
      have : crow.match_reason = e2.match_reason := by rw [hce]; rfl
      exact hnosplink e2 he2 (by rw [← this, ← h2, hreason])
    · have : crow.ukam_address_id = s.ukam_address_id := by rw [hcs]; rfl
      rw [h1, this]
      intro hmemb
      rw [Bool.not_eq_eq_eq_not] at hguard
      have hcon : (matched_exact_ukams exactMatches).contains
          s.ukam_address_id = true := List.elem_iff.mpr hmemb
      simp [hcon] at hguard
      exact hguard hmemb

/-- C5 witness: a record resolved deterministically with reason exact
and also present among the probabilistic candidates surfaces with the
deterministic resolution and null weight and distinguishability, and
the probabilistic candidate never surfaces for it. -/
theorem c5_deterministic_precedence_witness :
    (∃ row ∈ combine_exact_and_splink_matches false [sampleExactDet]
        [sampleSplinkCand] [sampleCanonLow],
      row.ukam_address_id = sampleExactDet.ukam_address_id ∧
      row.resolved_canonical_id = sampleExactDet.resolved_canonical_id ∧
      row.match_reason = some MatchReason.EXACT ∧
      row.match_weight = none ∧ row.distinguishability = none) ∧
    (∀ row ∈ combine_exact_and_splink_matches false [sampleExactDet]
        [sampleSplinkCand] [sampleCanonLow],
      row.ukam_address_id = sampleExactDet.ukam_address_id →
      row.resolved_canonical_id = sampleExactDet.resolved_canonical_id ∧
      row.match_reason = some MatchReason.EXACT ∧
      row.match_weight = none ∧ row.distinguishability = none) ∧
    (∀ row ∈ combine_exact_and_splink_matches false [sampleExactDet]
        [sampleSplinkCand] [sampleCanonLow],
      row.match_reason = some MatchReason.SPLINK →
      row.ukam_address_id ∉ matched_exact_ukams [sampleExactDet]) := by
  exact c5_deterministic_precedence false [sampleExactDet] [sampleSplinkCand]
    [sampleCanonLow] sampleExactDet MatchReason.EXACT (by decide) (by decide)
    (by decide) (by decide)

/-! ### C7: placeholder resolution at render time. -/

/-- The placeholder scan of str.replace walks past a block of
characters that contains no opening brace. -/
theorem replListFuel_skip (w repl : List Char) :
    ∀ (l1 : List Char) (fuel : Nat) (l2 : List Char), '\x7b' ∉ l1 →
      replListFuel ('\x7b' :: w) repl (l1.length + fuel) (l1 ++ l2) =
        l1 ++ replListFuel ('\x7b' :: w) repl fuel l2 := by
  intro l1
  induction l1 with
  | nil => intro fuel l2 _; simp
  | cons c t ih =>
      intro fuel l2 hno
      have hc : c ≠ '\x7b' := by
        intro h; exact hno (by simp [h])
      have ht : '\x7b' ∉ t := fun h => hno (by simp [h])
      have hguard : ¬ (('\x7b' :: w) ≠ [] ∧
          ('\x7b' :: w).isPrefixOf (c :: (t ++ l2))) := by
        intro hg
        rcases hg with ⟨-, hp⟩
        simp [List.isPrefixOf] at hp
        exact hc hp.1.symm
      show replListFuel ('\x7b' :: w) repl (t.length + 1 + fuel)
          (c :: (t ++ l2)) = c :: (t ++ replListFuel ('\x7b' :: w) repl fuel l2)
      have harith : t.length + 1 + fuel = (t.length + fuel) + 1 := by omega
      rw [harith]
      rw [replListFuel, if_neg hguard]
      rw [ih fuel l2 ht]

/-- A brace-headed pattern replaces nothing in a text without an
opening brace. -/
theorem replListFuel_no_open (w repl : List Char) :
    ∀ (fuel : Nat) (l : List Char), '\x7b' ∉ l →
      replListFuel ('\x7b' :: w) repl fuel l = l := by
  intro fuel
  induction fuel with
  | zero => intro l _; cases l <;> rfl
  | succ n ih =>
      intro l hno
      cases l with
      | nil => rfl
      | cons c t =>
          have hc : c ≠ '\x7b' := by intro h; exact hno (by simp [h])
          have ht : '\x7b' ∉ t := fun h => hno (by simp [h])
          have hguard : ¬ (('\x7b' :: w) ≠ [] ∧
              ('\x7b' :: w).isPrefixOf (c :: t)) := by
            intro hg
            rcases hg with ⟨-, hp⟩
            simp [List.isPrefixOf] at hp
            exact hc hp.1.symm
          rw [replListFuel, if_neg hguard, ih t ht]

/-- Two closing-brace-terminated words sharing a prefix relation are
equal when neither contains the closing brace internally. -/
theorem prefix_close_eq (w m : List Char)
    (hw : '\x7d' ∉ w) (hm : '\x7d' ∉ m)
    (hp : (w ++ ['\x7d']) <+: (m ++ ['\x7d'])) : w = m := by
  induction w generalizing m with
  | nil =>
      cases m with
      | nil => rfl
      | cons d u =>
          rw [List.nil_append, show (d :: u) ++ ['\x7d'] =
            d :: (u ++ ['\x7d']) from rfl, List.cons_prefix_cons] at hp
          exact absurd hp.1.symm (fun h => hm (by simp [h]))
  | cons c t ih =>
      cases m with
      | nil =>
          rw [List.nil_append, show (c :: t) ++ ['\x7d'] =
            c :: (t ++ ['\x7d']) from rfl, List.cons_prefix_cons] at hp
          exact absurd hp.1 (fun h => hw (by simp [h]))
      | cons d u =>
          rw [show (c :: t) ++ ['\x7d'] = c :: (t ++ ['\x7d']) from rfl,
            show (d :: u) ++ ['\x7d'] = d :: (u ++ ['\x7d']) from rfl,
            List.cons_prefix_cons] at hp
          have ht : '\x7d' ∉ t := fun h => hw (by simp [h])
          have hu : '\x7d' ∉ u := fun h => hm (by simp [h])
          rw [hp.1, ih u ht hu hp.2]

/-- Substituting any brace-wrapped key other than mystery leaves the
mystery fragment SQL unchanged (character-list level). -/
theorem replListFuel_mystery (w repl : List Char) (hw : '\x7d' ∉ w)
    (hne : w ≠ "mystery".data) :
    replListFuel ('\x7b' :: (w ++ ['\x7d'])) repl 23
      "SELECT * FROM \x7bmystery\x7d".data =
      "SELECT * FROM \x7bmystery\x7d".data := by
  have hdata : "SELECT * FROM \x7bmystery\x7d".data =
      "SELECT * FROM ".data ++ ('\x7b' :: ("mystery".data ++ ['\x7d'])) := by
    rfl
  have hlen : (23 : Nat) = "SELECT * FROM ".data.length + 9 := by rfl
  rw [hdata, hlen,
    replListFuel_skip (w ++ ['\x7d']) repl "SELECT * FROM ".data 9
      ('\x7b' :: ("mystery".data ++ ['\x7d'])) (by decide)]
  have hguard : ¬ (('\x7b' :: (w ++ ['\x7d'])) ≠ [] ∧
      ('\x7b' :: (w ++ ['\x7d'])).isPrefixOf
        ('\x7b' :: ("mystery".data ++ ['\x7d']))) := by
    intro hg
    rcases hg with ⟨-, hp⟩
    simp [List.isPrefixOf] at hp
    exact hne (prefix_close_eq w "mystery".data hw (by decide) hp)
  show "SELECT * FROM ".data ++
      replListFuel ('\x7b' :: (w ++ ['\x7d'])) repl (8 + 1)
        ('\x7b' :: ("mystery".data ++ ['\x7d'])) =
      "SELECT * FROM ".data ++ ('\x7b' :: ("mystery".data ++ ['\x7d']))
  rw [replListFuel, if_neg hguard,
    replListFuel_no_open (w ++ ['\x7d']) repl 8 ("mystery".data ++ ['\x7d'])
      (by decide)]

/-- String level: pyReplace with any key other than mystery is the
identity on the mystery fragment SQL. -/
theorem pyReplace_mystery (k v : String) (hk : k ≠ "mystery")
    (hb : '\x7d' ∉ k.data) :
    pyReplace "SELECT * FROM \x7bmystery\x7d" ("\x7b" ++ k ++ "\x7d") v =
      "SELECT * FROM \x7bmystery\x7d" := by
  have hpat : ("\x7b" ++ k ++ "\x7d").data = '\x7b' :: (k.data ++ ['\x7d']) := by
    simp [String.data_append]
  have hne : k.data ≠ "mystery".data := by
    intro h; exact hk (String.ext h)
  show (⟨replListFuel ("\x7b" ++ k ++ "\x7d").data v.data
      "SELECT * FROM \x7bmystery\x7d".data.length
      "SELECT * FROM \x7bmystery\x7d".data⟩ : String) = _
  rw [hpat, show "SELECT * FROM \x7bmystery\x7d".data.length = 23 from rfl,
    replListFuel_mystery k.data v.data hb hne]

/-- Every entry of a merged dict takes its key from the input list. -/
theorem dictMerge_key_mem (l : List (String × String)) :
    ∀ kv ∈ dictMerge l, ∃ e ∈ l, kv.1 = e.1 := by
  have haux : ∀ (l acc : List (String × String)) (kv : String × String),
      kv ∈ l.foldl
        (fun acc kv =>
          if acc.any (fun e => e.1 == kv.1) then
            acc.map (fun e => if e.1 == kv.1 then (e.1, kv.2) else e)
          else acc ++ [kv]) acc →
      (∃ a ∈ acc, kv.1 = a.1) ∨ ∃ e ∈ l, kv.1 = e.1 := by
    intro l
    induction l with
    | nil => intro acc kv h; exact Or.inl ⟨kv, by simpa using h, rfl⟩
    | cons p rest ih =>
        intro acc kv h
        simp only [List.foldl_cons] at h
        rcases ih _ kv h with hacc | hrest
        · rcases hacc with ⟨a, ha, hkey⟩
          by_cases hcond : acc.any (fun e => e.1 == p.1)
          · rw [if_pos hcond] at ha
            rcases List.mem_map.mp ha with ⟨b, hb, hba⟩
            by_cases hbp : b.1 == p.1
            · rw [if_pos hbp] at hba
              right
              refine ⟨p, by simp, ?_⟩
              rw [hkey, ← hba]
              exact of_decide_eq_true hbp
            · rw [if_neg hbp] at hba
              exact Or.inl ⟨b, hb, by rw [hkey, ← hba]⟩
          · rw [if_neg hcond] at ha
            rcases List.mem_append.mp ha with hin | hp
            · exact Or.inl ⟨a, hin, hkey⟩
            · right
              refine ⟨p, by simp, ?_⟩
              rw [hkey, List.mem_singleton.mp hp]
        · rcases hrest with ⟨e, he, hk⟩
          exact Or.inr ⟨e, by simp [he], hk⟩
  intro kv h
  rcases haux l [] kv h with hacc | hl
  · rcases hacc with ⟨a, ha, -⟩
    exact absurd ha (List.not_mem_nil a)
  · exact hl

/-- A fold of placeholder substitutions each of which is the identity is
the identity. -/
theorem substitutePlaceholders_eq_self (repls : List (String × String))
    (s : String)
    (h : ∀ kv ∈ repls, pyReplace s ("\x7b" ++ kv.1 ++ "\x7d") kv.2 = s) :
    substitutePlaceholders repls s = s := by
  induction repls with
  | nil => rfl
  | cons kv rest ih =>
      simp only [substitutePlaceholders, List.foldl_cons] at *
      rw [h kv (by simp)]
      exact ih (fun kv2 hm => h kv2 (by simp [hm]))

/-- C7: the claim says a stage fragment referencing a placeholder bound
to no alias makes rendering raise an error naming it.  Evaluating the
code on such a stage: render_step_to_ctes returns normally and the
rendered SQL still contains the unresolved placeholder verbatim —
substitution is plain str.replace over the known aliases and no check
exists (the runner even records this as a TODO). -/
theorem c7_render_leaves_unknown_placeholder :
    render_step_to_ctes mysteryStage 0 "seed0" [] =
      ([{ sql := "SELECT * FROM \x7bmystery\x7d",
          aliasName := "s0_st__f1",
          stage_name := some "st", fragment_name := some "f1",
          stage_description := none }],
        "s0_st__f1", "s0_st__f1") := by
  rfl

/-- C7 (amended): rendering a fragment whose template references an
unknown placeholder never raises; for every step index, previous alias
and alias map whose keys differ from the placeholder name (and, as for
every real placeholder key, contain no closing brace), the fragment is
emitted with the placeholder left verbatim in its SQL. -/
theorem c7_unknown_placeholder_left_verbatim (idx : Nat) (prev : String)
    (aliasMap : List (String × String))
    (hkeys : ∀ kv ∈ aliasMap, kv.1 ≠ "mystery" ∧ '\x7d' ∉ kv.1.data) :
    render_step_to_ctes mysteryStage idx prev aliasMap =
      ([{ sql := "SELECT * FROM \x7bmystery\x7d",
          aliasName := fragmentAlias idx "st" "f1",
          stage_name := some "st", fragment_name := some "f1",
          stage_description := none }],
        fragmentAlias idx "st" "f1", fragmentAlias idx "st" "f1") := by
  have hbase : ∀ kv ∈ dictMerge (dictMerge (("input", prev) :: aliasMap)
      ++ []), kv.1 ≠ "mystery" ∧ '\x7d' ∉ kv.1.data := by
    intro kv hkv
    rcases dictMerge_key_mem _ kv (by simpa using hkv) with ⟨e, he, hke⟩
    rcases dictMerge_key_mem _ e he with ⟨e2, he2, hke2⟩
    rcases List.mem_cons.mp he2 with h0 | hmap
    · have hfst : (("input", prev)).1 = "input" := rfl
      rw [hke, hke2, h0, hfst]
      exact ⟨by decide, by decide⟩
    · rw [hke, hke2]
      exact hkeys e2 hmap
  have hsql : substitutePlaceholders
      (dictMerge (dictMerge (("input", prev) :: aliasMap) ++ []))
      "SELECT * FROM \x7bmystery\x7d" = "SELECT * FROM \x7bmystery\x7d" := by
    refine substitutePlaceholders_eq_self _ _ (fun kv hkv => ?_)
    exact pyReplace_mystery kv.1 kv.2 (hbase kv hkv).1 (hbase kv hkv).2
  simp only [render_step_to_ctes, mysteryStage, renderFragsS]
  rw [hsql]
  simp [pyDict, alookup, List.find?, fragmentAlias]

/-- C7 amended witness: a concrete alias map with a key differing from
the placeholder. -/
theorem c7_unknown_placeholder_left_verbatim_witness :
    (∀ kv ∈ [("foo", "bar")], kv.1 ≠ "mystery" ∧ '\x7d' ∉ kv.1.data) ∧
    render_step_to_ctes mysteryStage 3 "prevA" [("foo", "bar")] =
      ([{ sql := "SELECT * FROM \x7bmystery\x7d",
          aliasName := fragmentAlias 3 "st" "f1",
          stage_name := some "st", fragment_name := some "f1",
          stage_description := none }],
        fragmentAlias 3 "st" "f1", fragmentAlias 3 "st" "f1") :=
  ⟨by decide,
   c7_unknown_placeholder_left_verbatim 3 "prevA" [("foo", "bar")]
     (by decide)⟩

/-! ### C6: checkpoint materialisation. -/

theorem lookupRel_cons_self (x : String) (v : SRel) (env : List (String × SRel)) :
    lookupRel ((x, v) :: env) x = v := by
  simp [lookupRel, List.find?]

theorem lookupRel_cons_ne (x y : String) (v : SRel) (env : List (String × SRel))
    (h : x ≠ y) : lookupRel ((x, v) :: env) y = lookupRel env y := by
  have hb : (x == y) = false := by simp [h]
  simp [lookupRel, List.find?, hb]

theorem extendEnv_append (q1 q2 : List RFrag) :
    ∀ env, extendEnv env (q1 ++ q2) = extendEnv (extendEnv env q1) q2 := by
  induction q1 with
  | nil => intro env; rfl
  | cons f rest ih => intro env; exact ih _

theorem lastAliasOf_concat (q : List RFrag) (f : RFrag) :
    lastAliasOf (q ++ [f]) = f.aliasName := by
  simp [lastAliasOf, List.getLast?_concat]

theorem chainVal_concat (tbls : List (String × SRel)) (q : List RFrag) (f : RFrag) :
    chainVal tbls (q ++ [f]) = evalRF (extendEnv tbls q) f := by
  unfold chainVal
  rw [extendEnv_append, lastAliasOf_concat]
  exact lookupRel_cons_self _ _ _

theorem lookupRel_extendEnv_skip (q : List RFrag) (x : String) :
    ∀ env, (∀ f ∈ q, f.aliasName ≠ x) →
      lookupRel (extendEnv env q) x = lookupRel env x := by
  induction q with
  | nil => intro env _; rfl
  | cons f rest ih =>
      intro env h
      show lookupRel (extendEnv ((f.aliasName, evalRF env f) :: env) rest) x = _
      rw [ih _ (fun g hg => h g (by simp [hg])),
        lookupRel_cons_ne _ _ _ _ (h f (by simp))]

theorem alookup_pyInsert_ne {α : Type} (m : List (String × α)) (kn k : String)
    (v : α) (h : kn ≠ k) : alookup (pyInsert m kn v) k = alookup m k := by
  unfold pyInsert
  by_cases hc : m.any (fun e => e.1 == kn)
  · rw [if_pos hc]
    unfold alookup
    rw [List.find?_map]
    have hpre : ((fun kv => kv.1 == k) ∘
        (fun e : String × α => if e.1 == kn then (e.1, v) else e)) =
        (fun kv : String × α => kv.1 == k) := by
      funext e
      by_cases he : (e.1 == kn) = true
      · rw [Function.comp_apply, if_pos he]
      · rw [Function.comp_apply, if_neg he]
    rw [hpre]
    cases hf : m.find? (fun kv => kv.1 == k) with
    | none => rfl
    | some e =>
        have hek : e.1 = k := by simpa using List.find?_some hf
        have hne2 : e.1 ≠ kn := by
          rw [hek]
          exact fun hh => h hh.symm
        simp [hne2]
  · rw [if_neg hc]
    unfold alookup
    rw [List.find?_append]
    have h2 : List.find? (fun kv : String × α => kv.1 == k) [(kn, v)] = none := by
      rw [List.find?_eq_none]
      intro x hx
      rw [List.mem_singleton] at hx
      subst hx
      simp
      exact h
    rw [h2]
    cases m.find? (fun kv => kv.1 == k) <;> rfl

theorem alookup_setdefault_ne {α : Type} (m : List (String × α)) (kn k : String)
    (v : α) (h : kn ≠ k) : alookup (setdefaultStr m kn v) k = alookup m k := by
  unfold setdefaultStr
  by_cases hc : (alookup m kn).isSome
  · rw [if_pos hc]
  · rw [if_neg hc]
    unfold alookup
    rw [List.find?_append]
    have h2 : List.find? (fun kv : String × α => kv.1 == k) [(kn, v)] = none := by
      rw [List.find?_eq_none]
      intro x hx
      rw [List.mem_singleton] at hx
      subst hx
      simp
      exact h
    rw [h2]
    cases m.find? (fun kv => kv.1 == k) <;> rfl

theorem alookup_map_remap (m : List (String × String)) (pa : List String)
    (s k : String) :
    alookup (m.map (fun kv => if kv.2 ∈ pa then (kv.1, s) else kv)) k =
      (alookup m k).map (fun v => if v ∈ pa then s else v) := by
  unfold alookup
  rw [List.find?_map]
  have hpre : ((fun kv => kv.1 == k) ∘
      (fun kv : String × String => if kv.2 ∈ pa then (kv.1, s) else kv)) =
      (fun kv : String × String => kv.1 == k) := by
    funext e
    by_cases he : e.2 ∈ pa <;> simp [he]
  rw [hpre]
  cases hf : m.find? (fun kv => kv.1 == k) with
  | none => rfl
  | some e =>
      by_cases he : e.2 ∈ pa <;> simp [he]






theorem digitChar_toNat (n : Nat) : (digitChar n).toNat = 48 + n % 10 := by
  have h : n % 10 < 10 := Nat.mod_lt n (by omega)
  unfold digitChar
  interval_cases h2 : n % 10 <;> simp_all

theorem parseNatDigits_append_one (l : List Char) (c : Char) :
    parseNatDigits (l ++ [c]) = 10 * parseNatDigits l + (c.toNat - 48) := by
  unfold parseNatDigits
  rw [List.foldl_append]
  rfl

theorem parseNatDigits_fuel (fuel : Nat) : ∀ n ≤ fuel,
    parseNatDigits (natDigitsFuel fuel n) = n := by
  induction fuel with
  | zero =>
      intro n hn
      have h0 : n = 0 := by omega
      subst h0
      decide
  | succ f ih =>
      intro n hn
      by_cases h10 : n < 10
      · show parseNatDigits (if n < 10 then [digitChar n]
          else natDigitsFuel f (n / 10) ++ [digitChar (n % 10)]) = n
        rw [if_pos h10]
        show 10 * 0 + ((digitChar n).toNat - 48) = n
        rw [digitChar_toNat]
        omega
      · show parseNatDigits (if n < 10 then [digitChar n]
          else natDigitsFuel f (n / 10) ++ [digitChar (n % 10)]) = n
        rw [if_neg h10, parseNatDigits_append_one, digitChar_toNat,
          ih (n / 10) (by omega)]
        omega

theorem parse_natDigits (n : Nat) : parseNatDigits (natDigits n) = n :=
  parseNatDigits_fuel n n (le_refl n)

theorem natDigits_inj {a b : Nat} (h : natDigits a = natDigits b) : a = b := by
  have := parse_natDigits a
  rw [h, parse_natDigits] at this
  omega

theorem natStr_inj {a b : Nat} (h : natStr a = natStr b) : a = b := by
  have hd : natDigits a = natDigits b := congrArg String.data h
  exact natDigits_inj hd

theorem data_append_str (a b : String) : (a ++ b).data = a.data ++ b.data := by
  exact String.data_append a b

theorem fragmentAlias_head (i : Nat) (sn fn : String) :
    (fragmentAlias i sn fn).data.head? = some 's' := by
  unfold fragmentAlias
  rw [data_append_str, data_append_str, data_append_str, data_append_str]
  rfl

theorem seed_ck_head (n : Nat) :
    ("seed_ck_" ++ natStr n).data.head? = some 's' := by
  rw [data_append_str]
  rfl

theorem seg_key_head (n : Nat) :
    ("__seg_" ++ natStr n).data.head? = some '_' := by
  rw [data_append_str]
  rfl

theorem seg_key_inj {i j : Nat}
    (h : "__seg_" ++ natStr i = "__seg_" ++ natStr j) : i = j := by
  have hd : ("__seg_" ++ natStr i).data = ("__seg_" ++ natStr j).data :=
    congrArg String.data h
  rw [data_append_str, data_append_str] at hd
  have h2 : (natStr i).data = (natStr j).data := List.append_cancel_left hd
  exact natDigits_inj h2

theorem alookup_eq_none_of {α : Type} (m : List (String × α)) (k : String)
    (h : ∀ kv ∈ m, kv.1 ≠ k) : alookup m k = none := by
  unfold alookup
  have hf : m.find? (fun kv => kv.1 == k) = none := by
    rw [List.find?_eq_none]
    intro kv hkv
    simp
    exact h kv hkv
  rw [hf]
  rfl

theorem alookup_append_of_isSome {α : Type} (m1 m2 : List (String × α))
    (k : String) (h : (alookup m1 k).isSome) :
    alookup (m1 ++ m2) k = alookup m1 k := by
  unfold alookup at *
  rw [List.find?_append]
  cases hf : m1.find? (fun kv => kv.1 == k) with
  | none => rw [hf] at h; simp at h
  | some e => rfl

theorem lookupRel_append_of_mem (l1 l2 : List (String × SRel)) (k : String)
    (hk : k ∈ l1.map (fun kv => kv.1)) :
    lookupRel (l1 ++ l2) k = lookupRel l1 k := by
  unfold lookupRel
  rw [List.find?_append]
  cases hf : l1.find? (fun kv => kv.1 == k) with
  | none =>
      rw [List.find?_eq_none] at hf
      rcases List.mem_map.mp hk with ⟨kv, hkv, hk1⟩
      have := hf kv hkv
      simp [hk1] at this
  | some e => rfl

theorem alookup_selfmap (inputs : List (String × SRel)) (k : String)
    (hk : k ∈ inputs.map (fun kv => kv.1)) :
    alookup (inputs.map (fun kv => (kv.1, kv.1))) k = some k := by
  induction inputs with
  | nil => simp at hk
  | cons kv rest ih =>
      by_cases he : kv.1 = k
      · show alookup ((kv.1, kv.1) :: rest.map (fun kv => (kv.1, kv.1))) k = some k
        have hb : (kv.1 == k) = true := by simp [he]
        simp [alookup, List.find?, hb, he]
      · show alookup ((kv.1, kv.1) :: rest.map (fun kv => (kv.1, kv.1))) k = some k
        have hb : (kv.1 == k) = false := by simp [he]
        have hk2 : k ∈ rest.map (fun kv => kv.1) := by
          rcases List.mem_map.mp hk with ⟨e, hme, hek⟩
          rcases List.mem_cons.mp hme with h0 | h0
          · exact absurd (by rw [← h0]; exact hek) he
          · exact List.mem_map.mpr ⟨e, h0, hek⟩
        have := ih hk2
        simpa [alookup, List.find?, hb] using this

theorem mem_of_mem_setdefault {α : Type} (m : List (String × α))
    (kn : String) (v : α) (kv : String × α)
    (h : kv ∈ setdefaultStr m kn v) : kv ∈ m ∨ kv = (kn, v) := by
  unfold setdefaultStr at h
  by_cases hc : (alookup m kn).isSome
  · rw [if_pos hc] at h
    exact Or.inl h
  · rw [if_neg hc] at h
    rcases List.mem_append.mp h with h1 | h1
    · exact Or.inl h1
    · exact Or.inr (List.mem_singleton.mp h1)

theorem pipeInv_init (inputs : List (String × SRel))
    (hinp : ∀ kv ∈ inputs, goodKey kv.1) :
    PipeInv inputs (initPipe inputs) (initPipe inputs) := by
  have hbase : ∀ k ∈ inputs.map (fun kv => kv.1),
      alookup (initPipe inputs).aliasMap k = some k := by
    intro k hk
    have hsome : alookup (inputs.map (fun kv => (kv.1, kv.1))) k = some k :=
      alookup_selfmap inputs k hk
    show alookup (setdefaultStr (inputs.map (fun kv => (kv.1, kv.1))) "root"
      (((inputs.head?).map (fun kv => kv.1)).getD "")) k = some k
    unfold setdefaultStr
    by_cases hroot : (alookup (inputs.map (fun kv => (kv.1, kv.1))) "root").isSome
    · rw [if_pos hroot]
      exact hsome
    · rw [if_neg hroot]
      rw [alookup_append_of_isSome _ _ _ (by rw [hsome]; rfl)]
      exact hsome
  have hnone : alookup (initPipe inputs).aliasMap "input" = none := by
    apply alookup_eq_none_of
    intro kv hkv
    rcases mem_of_mem_setdefault _ _ _ kv hkv with h1 | h1
    · rcases List.mem_map.mp h1 with ⟨e, he, hke⟩
      rw [← hke]
      exact (hinp e he).1
    · rw [h1]
      simp
  refine ⟨rfl, by rfl, ⟨[], by simp [initPipe],
      fun kv hkv => absurd hkv (List.not_mem_nil kv)⟩,
    fun k hk => ⟨hbase k hk, hbase k hk⟩, hnone, hnone, ?_, ?_⟩ <;>
  · intro f hf
    rcases List.mem_singleton.mp hf with rfl
    rfl

theorem chainVal_singleton (tbls : List (String × SRel)) (f : RFrag) :
    chainVal tbls [f] = evalRF tbls f := by
  have h := chainVal_concat tbls [] f
  simpa using h

theorem pipeInv_materialise (inputs : List (String × SRel))
    (hinp : ∀ kv ∈ inputs, goodKey kv.1)
    (sp sc : PipeSt) (hinv : PipeInv inputs sp sc) :
    PipeInv inputs sp (materialiseCheckpoint sc) := by
  obtain ⟨hval, htp, ⟨extra, htc, hextra⟩, hmap, hip, hic, hqp, hqc⟩ := hinv
  have hqueue : (materialiseCheckpoint sc).queue =
      [⟨"seed_ck_" ++ natStr sc.seg,
        tmplRef ("__seg_" ++ natStr sc.seg) id, id⟩] := rfl
  have htables : (materialiseCheckpoint sc).tables =
      sc.tables ++ [("__seg_" ++ natStr sc.seg, chainVal sc.tables sc.queue)] := rfl
  have hseg : (materialiseCheckpoint sc).seg = sc.seg + 1 := rfl
  have hamap : (materialiseCheckpoint sc).aliasMap =
      sc.aliasMap.map (fun kv =>
        if kv.2 ∈ sc.queue.map (fun g => g.aliasName) then
          (kv.1, "seed_ck_" ++ natStr sc.seg) else kv) := rfl
  have hfind : (inputs ++ extra).find?
      (fun kv => kv.1 == "__seg_" ++ natStr sc.seg) = none := by
    rw [List.find?_eq_none]
    intro kv hkv
    simp only [beq_iff_eq]
    rcases List.mem_append.mp hkv with h1 | h1
    · intro hcon
      have hh := (hinp kv h1).2.2
      exact hh (by rw [hcon]; exact seg_key_head sc.seg)
    · rcases hextra kv h1 with ⟨i, hlt, hkey⟩
      intro hcon
      rw [hkey] at hcon
      exact absurd (seg_key_inj hcon) (by omega)
  have hrhs : chainVal (materialiseCheckpoint sc).tables
      (materialiseCheckpoint sc).queue = chainVal sc.tables sc.queue := by
    rw [hqueue, htables, chainVal_singleton]
    show lookupRel (sc.tables ++
        [("__seg_" ++ natStr sc.seg, chainVal sc.tables sc.queue)])
        ("__seg_" ++ natStr sc.seg) = chainVal sc.tables sc.queue
    unfold lookupRel
    rw [htc, List.find?_append, hfind]
    simp [List.find?]
  refine ⟨by rw [hrhs]; exact hval, htp,
    ⟨extra ++ [("__seg_" ++ natStr sc.seg, chainVal sc.tables sc.queue)],
      by rw [htables, htc, List.append_assoc], ?_⟩, ?_, hip, ?_, hqp, ?_⟩
  · intro kv hkv
    rw [hseg]
    rcases List.mem_append.mp hkv with h1 | h1
    · rcases hextra kv h1 with ⟨i, hlt, hkey⟩
      exact ⟨i, by omega, hkey⟩
    · rcases List.mem_singleton.mp h1 with rfl
      exact ⟨sc.seg, by omega, rfl⟩
  · intro k hk
    refine ⟨(hmap k hk).1, ?_⟩
    rw [hamap, alookup_map_remap, (hmap k hk).2]
    have hnk : k ∉ sc.queue.map (fun g => g.aliasName) := by
      intro hmem
      rcases List.mem_map.mp hmem with ⟨g, hg, hgk⟩
      have := hqc g hg
      rcases List.mem_map.mp hk with ⟨e, he, hek⟩
      have hkh := (hinp e he).2.1
      rw [hek] at hkh
      exact hkh (by rw [← hgk]; exact this)
    simp [hnk]
    intro x hx hxk
    exact absurd (List.mem_map.mpr ⟨x, hx, hxk⟩) hnk
  · rw [hamap, alookup_map_remap, hic]
    rfl
  · rw [hqueue]
    intro g hg
    rcases List.mem_singleton.mp hg with rfl
    exact seed_ck_head sc.seg

theorem addPStep_single_eq (hc : Bool) (st : PipeSt) (step : PStep) (f : PFrag)
    (hfr : step.frags = [f]) :
    addPStep hc st step =
      if hc ∧ step.checkpoint then materialiseCheckpoint (singleState st step f)
      else singleState st step f := by
  unfold addPStep renderPStep singleState
  rw [hfr]
  cases ho : step.output with
  | none => simp [renderFrags, pyInsert, alookup, List.find?]
  | some o =>
      by_cases he : o.isEmpty <;>
        simp [renderFrags, pyInsert, alookup, List.find?, he]

theorem pipeInv_single (inputs : List (String × SRel))
    (hinp : ∀ kv ∈ inputs, goodKey kv.1)
    (step : PStep) (f : PFrag)
    (hrefs : ∀ r ∈ f.tmpl.refs, r = "input" ∨ r ∈ inputs.map (fun kv => kv.1))
    (hfin : f.name ≠ "input")
    (hfk : f.name ∉ inputs.map (fun kv => kv.1))
    (hout : ∀ o, step.output = some o →
      o ≠ "input" ∧ o ∉ inputs.map (fun kv => kv.1))
    (sp sc : PipeSt) (hinv : PipeInv inputs sp sc) :
    PipeInv inputs (singleState sp step f) (singleState sc step f) := by
  obtain ⟨hval, htp, ⟨extra, htc, hextra⟩, hmap, hip, hic, hqp, hqc⟩ := hinv
  have hagree : ∀ r ∈ f.tmpl.refs,
      lookupRel (extendEnv sp.tables sp.queue)
        (resolveRef [] sp.aliasMap (lastAliasOf sp.queue) r) =
      lookupRel (extendEnv sc.tables sc.queue)
        (resolveRef [] sc.aliasMap (lastAliasOf sc.queue) r) := by
    intro r hr
    rcases hrefs r hr with rfl | hk
    · have hres : ∀ (am : List (String × String)) (p : String),
          alookup am "input" = none → resolveRef [] am p "input" = p := by
        intro am p hnone
        unfold resolveRef
        rw [show alookup ([] : List (String × String)) "input" = none from rfl,
          hnone]
        simp
      rw [hres sp.aliasMap _ hip, hres sc.aliasMap _ hic]
      exact hval
    · have hgk : goodKey r := by
        rcases List.mem_map.mp hk with ⟨e, he, hek⟩
        rw [← hek]
        exact hinp e he
      have hres : ∀ (am : List (String × String)) (p : String),
          alookup am r = some r → resolveRef [] am p r = r := by
        intro am p hsome
        unfold resolveRef
        rw [show alookup ([] : List (String × String)) r = none from rfl, hsome]
      rw [hres sp.aliasMap _ (hmap r hk).1, hres sc.aliasMap _ (hmap r hk).2]
      have hskip : ∀ (st : PipeSt),
          (∀ g ∈ st.queue, g.aliasName.data.head? = some 's') →
          lookupRel (extendEnv st.tables st.queue) r = lookupRel st.tables r := by
        intro st hq
        apply lookupRel_extendEnv_skip
        intro g hg hcon
        exact hgk.2.1 (by rw [← hcon]; exact hq g hg)
      rw [hskip sp hqp, hskip sc hqc, htp, htc,
        lookupRel_append_of_mem inputs extra r hk]
  have hvalnew : chainVal (singleState sp step f).tables
      (singleState sp step f).queue =
      chainVal (singleState sc step f).tables (singleState sc step f).queue := by
    show chainVal sp.tables (sp.queue ++
        [⟨fragmentAlias sp.counter step.name f.name, f.tmpl,
          resolveRef [] sp.aliasMap (lastAliasOf sp.queue)⟩]) =
      chainVal sc.tables (sc.queue ++
        [⟨fragmentAlias sc.counter step.name f.name, f.tmpl,
          resolveRef [] sc.aliasMap (lastAliasOf sc.queue)⟩])
    rw [chainVal_concat, chainVal_concat]
    exact f.tmpl.deps _ _ hagree
  have hmapnew : ∀ (st : PipeSt) (k : String), f.name ≠ k →
      (∀ o, step.output = some o → o ≠ k) →
      alookup (singleState st step f).aliasMap k = alookup st.aliasMap k := by
    intro st k hnf hno
    show alookup (match step.output with
      | some o =>
          if o.isEmpty then
            pyInsert st.aliasMap f.name (fragmentAlias st.counter step.name f.name)
          else
            setdefaultStr (pyInsert st.aliasMap o
                ((alookup [(f.name, fragmentAlias st.counter step.name f.name)]
                    o).getD (fragmentAlias st.counter step.name f.name)))
              f.name (fragmentAlias st.counter step.name f.name)
      | none =>
          pyInsert st.aliasMap f.name
            (fragmentAlias st.counter step.name f.name)) k = alookup st.aliasMap k
    cases ho : step.output with
    | none => exact alookup_pyInsert_ne _ _ _ _ hnf
    | some o =>
        dsimp only
        by_cases he : o.isEmpty
        · rw [if_pos he]
          exact alookup_pyInsert_ne _ _ _ _ hnf
        · rw [if_neg he]
          rw [alookup_setdefault_ne _ _ _ _ hnf,
            alookup_pyInsert_ne _ _ _ _ (hno o ho)]
  have hqnew : ∀ (st : PipeSt),
      (∀ g ∈ st.queue, g.aliasName.data.head? = some 's') →
      ∀ g ∈ (singleState st step f).queue, g.aliasName.data.head? = some 's' := by
    intro st hq g hg
    rcases List.mem_append.mp hg with h1 | h1
    · exact hq g h1
    · rcases List.mem_singleton.mp h1 with rfl
      exact fragmentAlias_head _ _ _
  refine ⟨hvalnew, htp, ⟨extra, htc, hextra⟩, ?_, ?_, ?_, hqnew sp hqp, hqnew sc hqc⟩
  · intro k hk
    have hnf : f.name ≠ k := fun h => hfk (h ▸ hk)
    have hno : ∀ o, step.output = some o → o ≠ k := by
      intro o ho h
      exact (hout o ho).2 (h ▸ hk)
    rw [hmapnew sp k hnf hno, hmapnew sc k hnf hno]
    exact hmap k hk
  · rw [hmapnew sp "input" hfin (fun o ho => (hout o ho).1)]
    exact hip
  · rw [hmapnew sc "input" hfin (fun o ho => (hout o ho).1)]
    exact hic

theorem pipeInv_addPStep (inputs : List (String × SRel))
    (hinp : ∀ kv ∈ inputs, goodKey kv.1)
    (step : PStep) (hstep : goodStep (inputs.map (fun kv => kv.1)) step)
    (sp sc : PipeSt) (hinv : PipeInv inputs sp sc) :
    PipeInv inputs (addPStep false sp step) (addPStep true sc step) := by
  obtain ⟨⟨f, hfr, hrefs, hfin, hfk⟩, hout⟩ := hstep
  rw [addPStep_single_eq false sp step f hfr,
    addPStep_single_eq true sc step f hfr]
  have h1 := pipeInv_single inputs hinp step f hrefs hfin hfk hout sp sc hinv
  by_cases hck : step.checkpoint = true
  · rw [if_neg (by simp), if_pos ⟨rfl, hck⟩]
    exact pipeInv_materialise inputs hinp _ _ h1
  · rw [if_neg (by simp), if_neg (fun hcon => hck hcon.2)]
    exact h1

theorem pipeInv_fold (inputs : List (String × SRel))
    (hinp : ∀ kv ∈ inputs, goodKey kv.1) :
    ∀ (steps : List PStep),
      (∀ st ∈ steps, goodStep (inputs.map (fun kv => kv.1)) st) →
      ∀ sp sc, PipeInv inputs sp sc →
      PipeInv inputs (steps.foldl (addPStep false) sp)
        (steps.foldl (addPStep true) sc) := by
  intro steps
  induction steps with
  | nil => intro _ sp sc h; exact h
  | cons s rest ih =>
      intro hg sp sc h
      simp only [List.foldl_cons]
      exact ih (fun t ht => hg t (by simp [ht])) _ _
        (pipeInv_addPStep inputs hinp s (hg s (by simp)) sp sc h)


/-- C6: the claim says the final relation of run() is row-for-row
identical whether or not any stage sets checkpoint=True.  Evaluating the
code on a three-stage pipeline whose last stage references a placeholder
bound to a pre-checkpoint fragment alias: _materialise_checkpoint remaps
that alias-map entry to the new seed, so the checkpointing run reads the
checkpointed (doubled) relation where the plain run reads the first
stage output — the two final relations differ. -/
theorem c6_checkpoint_changes_result :
    runPipe false [("base", [1, 2, 3])] [ckStage1, ckStage2, ckStage3] =
      [1, 2, 3, 10] ∧
    runPipe true [("base", [1, 2, 3])] [ckStage1, ckStage2, ckStage3] =
      [2, 4, 6, 20] ∧
    runPipe true [("base", [1, 2, 3])] [ckStage1, ckStage2, ckStage3] ≠
      runPipe false [("base", [1, 2, 3])] [ckStage1, ckStage2, ckStage3] :=
  ⟨rfl, rfl, by decide⟩

/-- C6 (amended): checkpoint materialisation is transparent for
pipelines whose stages are single-fragment and reference only the
reserved input placeholder and the registered input bindings (with the
hygienic binding names every real pipeline uses): the checkpointing run
and the plain run produce the same final relation. -/
theorem c6_checkpoint_transparent_for_pure_input_refs
    (inputs : List (String × SRel)) (steps : List PStep)
    (hinp : ∀ kv ∈ inputs, goodKey kv.1)
    (hsteps : ∀ st ∈ steps, goodStep (inputs.map (fun kv => kv.1)) st) :
    runPipe true inputs steps = runPipe false inputs steps := by
  have h := pipeInv_fold inputs hinp steps hsteps (initPipe inputs)
    (initPipe inputs) (pipeInv_init inputs hinp)
  exact h.1.symm

/-- C6 amended witness: the counterexample pipeline with the third
stage replaced by one referencing only input gives identical results
with and without the checkpoint. -/
theorem c6_checkpoint_transparent_for_pure_input_refs_witness :
    (∀ kv ∈ [("base", ([1, 2, 3] : SRel))], goodKey kv.1) ∧
    runPipe true [("base", [1, 2, 3])] [ckStage1, ckStage2, ckStage3i] =
      runPipe false [("base", [1, 2, 3])] [ckStage1, ckStage2, ckStage3i] := by
  have hbk : ∀ kv ∈ [("base", ([1, 2, 3] : SRel))], goodKey kv.1 := by
    intro kv hkv
    rcases List.mem_singleton.mp hkv with rfl
    exact ⟨by decide, by decide, by decide⟩
  refine ⟨hbk, c6_checkpoint_transparent_for_pure_input_refs _ _ hbk ?_⟩
  intro st hst
  rcases List.mem_cons.mp hst with rfl | hst
  · exact ⟨⟨⟨"a", tmplRef "input" (fun l => l ++ [10])⟩, rfl, by decide,
      by decide, by decide⟩, fun o ho => Option.noConfusion ho⟩
  rcases List.mem_cons.mp hst with rfl | hst
  · exact ⟨⟨⟨"b", tmplRef "input" (fun l => l.map (fun x => 2 * x))⟩, rfl,
      by decide, by decide, by decide⟩, fun o ho => Option.noConfusion ho⟩
  rcases List.mem_cons.mp hst with rfl | hst
  · exact ⟨⟨⟨"c", tmplRef "input" (fun l => l ++ [99])⟩, rfl, by decide,
      by decide, by decide⟩, fun o ho => Option.noConfusion ho⟩
  · exact absurd hst (List.not_mem_nil st)
